import Mathlib

/-!
Verification development for the zk-verifier contract of shade-studio.

The Lean definitions below are a shallow embedding of
`src/contracts/zk-verifier/src/{verifier.rs, lib.rs, storage.rs, types.rs, errors.rs}`.

Modelling conventions:
* BN254 base-field elements (`Fq`) are `Nat` values kept `< q` by reducing with
  `% q` after every operation; `Fq2 = Fq[u]/(u^2+1)` is a pair `(c0, c1)`.
  This mirrors the `ark_bn254` field types, which the contract uses through
  `parse_field_element` / point parsing.
* The `ark_ff` impl of `FromStr for Fp` ("Interpret a string of numbers as a (congruent)
  prime field element. Does not accept unnecessary leading zeroes or a blank
  string.") is embedded as `arkFromStr`: digits are accumulated with
  `res = res * 10 + digit` computed in the field, so inputs are reduced
  modulo the field order rather than range-rejected.
* Elliptic-curve group arithmetic (`Projective` addition, scalar
  multiplication, normalization back to affine) is embedded with standard
  Jacobian-coordinate formulas for short Weierstrass curves with a = 0,
  which is the group law `ark_bn254` implements; scalar multiplication is
  double-and-add over the (at most 256) bits of the scalar.
* `is_in_correct_subgroup_assuming_on_curve` for BN254 G2 is embedded by its
  specification: membership in the prime-order-`r` subgroup, i.e. `r • P`
  is the point at infinity.
* The pairing itself (`Bn254::multi_pairing` and the target group `GT`) is an
  external cryptographic primitive; it is embedded as a parameter
  (`PairingModel`) and every theorem quantifies over it.  The control flow of the verifier never inspects the pairing output except through `is_zero`,
  which the parameter also provides.
* The NEAR host is embedded as an explicit calling context `Ctx`
  (predecessor account, attached deposit, block timestamp) plus a parameter
  for `env::sha256` as used by credential-id generation.  A host-level panic
  (`ContractError::panic`) aborts the transaction and rolls back every state
  write; entry points therefore return `Except ContractError (State × α)`,
  and an `.error` result carries no state — rollback by construction.
* `u64`/`u128` arithmetic that can overflow is made explicit with `% 2^64`
  (NEAR contracts are compiled for wasm; with `overflow-checks` enabled the
  overflowing cases would abort instead, which no claim depends on).
-/

set_option maxRecDepth 200000

deriving instance DecidableEq for Except

namespace ShadeStudio

/-! ## BN254 field constants -/

/-- The BN254 base-field modulus (order of Fq). -/
def q : Nat := 21888242871839275222246405745257275088696311157297823662689037894645226208583

/-- The BN254 scalar-field modulus (order of Fr, and of the G1/G2 subgroups). -/
def rScalar : Nat := 21888242871839275222246405745257275088548364400416034343698204186575808495617

/-! ## Generic field-operation bundle

`ark_bn254` instantiates its curve arithmetic once over `Fq` (for G1) and once
over `Fq2` (for G2); we mirror that sharing with a small operations bundle. -/

structure FieldOps (α : Type) where
  zero : α
  one : α
  add : α → α → α
  sub : α → α → α
  mul : α → α → α
  beq : α → α → Bool

/-- Fq: the base field as reduced `Nat` values. -/
def fqOps : FieldOps Nat where
  zero := 0
  one := 1
  add a b := (a + b) % q
  sub a b := (a + (q - b % q)) % q
  mul a b := a * b % q
  beq a b := a % q == b % q

/-- Fq2 = Fq[u]/(u^2 + 1): pairs (c0, c1); the BN254 quadratic nonresidue is -1. -/
def fq2Ops : FieldOps (Nat × Nat) where
  zero := (0, 0)
  one := (1, 0)
  add a b := (fqOps.add a.1 b.1, fqOps.add a.2 b.2)
  sub a b := (fqOps.sub a.1 b.1, fqOps.sub a.2 b.2)
  mul a b := (fqOps.sub (fqOps.mul a.1 b.1) (fqOps.mul a.2 b.2),
              fqOps.add (fqOps.mul a.1 b.2) (fqOps.mul a.2 b.1))
  beq a b := fqOps.beq a.1 b.1 && fqOps.beq a.2 b.2

/-! ## Affine and Jacobian points -/

/-- Affine point with an explicit infinity flag, mirroring `ark_ec::AffineRepr`
(`Affine { x, y, infinity }`).  `new_unchecked` in the source always builds the
flag as `false`. -/
structure Aff (α : Type) where
  x : α
  y : α
  inf : Bool
deriving DecidableEq

/-- Jacobian-coordinate point (X, Y, Z); Z = 0 encodes the point at infinity.
Mirrors `ark_ec::Projective`. -/
structure Jac (α : Type) where
  x : α
  y : α
  z : α
deriving DecidableEq

def jacIdentity (F : FieldOps α) : Jac α := ⟨F.one, F.one, F.zero⟩

/-- `AffineRepr::into_group`. -/
def jacOfAffine (F : FieldOps α) (P : Aff α) : Jac α :=
  if P.inf then jacIdentity F else ⟨P.x, P.y, F.one⟩

/-- Jacobian doubling for a short Weierstrass curve with a = 0
(both BN254 G1 and its G2 twist have a = 0). -/
def jacDouble (F : FieldOps α) (P : Jac α) : Jac α :=
  if F.beq P.z F.zero then jacIdentity F else
  let A := F.mul P.x P.x
  let B := F.mul P.y P.y
  let C := F.mul B B
  let t := F.add P.x B
  let D := F.add (F.sub (F.sub (F.mul t t) A) C) (F.sub (F.sub (F.mul t t) A) C)
  let E := F.add (F.add A A) A
  let Fv := F.mul E E
  let X3 := F.sub Fv (F.add D D)
  let C8 := F.add (F.add (F.add C C) (F.add C C)) (F.add (F.add C C) (F.add C C))
  let Y3 := F.sub (F.mul E (F.sub D X3)) C8
  let Z3 := F.add (F.mul P.y P.z) (F.mul P.y P.z)
  ⟨X3, Y3, Z3⟩

/-- General Jacobian addition (group law, a = 0 curve). -/
def jacAdd (F : FieldOps α) (P Q : Jac α) : Jac α :=
  if F.beq P.z F.zero then Q else
  if F.beq Q.z F.zero then P else
  let Z1Z1 := F.mul P.z P.z
  let Z2Z2 := F.mul Q.z Q.z
  let U1 := F.mul P.x Z2Z2
  let U2 := F.mul Q.x Z1Z1
  let S1 := F.mul P.y (F.mul Q.z Z2Z2)
  let S2 := F.mul Q.y (F.mul P.z Z1Z1)
  if F.beq U1 U2 then
    if F.beq S1 S2 then jacDouble F P else jacIdentity F
  else
    let H := F.sub U2 U1
    let HH := F.mul H H
    let HHH := F.mul H HH
    let Rr := F.sub S2 S1
    let V := F.mul U1 HH
    let X3 := F.sub (F.sub (F.mul Rr Rr) HHH) (F.add V V)
    let Y3 := F.sub (F.mul Rr (F.sub V X3)) (F.mul S1 HHH)
    let Z3 := F.mul (F.mul P.z Q.z) H
    ⟨X3, Y3, Z3⟩

/-- Double-and-add scalar multiplication over the bits of `k`,
with enough structural fuel for 256-bit scalars. -/
def jacMulFuel (F : FieldOps α) : Nat → Nat → Jac α → Jac α → Jac α
  | 0, _, acc, _ => acc
  | fuel + 1, k, acc, base =>
    if k == 0 then acc
    else jacMulFuel F fuel (k / 2)
      (if k % 2 == 1 then jacAdd F acc base else acc)
      (jacDouble F base)

/-- `Projective::mul` by a (nonnegative) scalar. -/
def jacMul (F : FieldOps α) (k : Nat) (P : Jac α) : Jac α :=
  jacMulFuel F 256 k (jacIdentity F) P

/-- Modular exponentiation with structural fuel (used only to invert in Fq
when normalizing a Jacobian point back to affine; the inverse of a unit
modulo the prime `q` is `a^(q-2)`). -/
def powModFuel : Nat → Nat → Nat → Nat → Nat → Nat
  | 0, _, _, acc, _ => acc
  | fuel + 1, b, e, acc, m =>
    if e == 0 then acc
    else powModFuel fuel (b * b % m) (e / 2) (if e % 2 == 1 then acc * b % m else acc) m

def powMod (b e m : Nat) : Nat := powModFuel 256 (b % m) e 1 m

/-- `G1Affine::from(projective)`: normalize (X, Y, Z) to (X/Z², Y/Z³);
the projective identity maps to the affine point at infinity. -/
def g1JacToAffine (P : Jac Nat) : Aff Nat :=
  if P.z % q == 0 then ⟨0, 1, true⟩
  else
    let zinv := powMod P.z (q - 2) q
    let zi2 := zinv * zinv % q
    ⟨P.x * zi2 % q, P.y * (zi2 * zinv % q) % q, false⟩

/-! ## Curve membership -/

/-- `G1Affine::is_on_curve`: the affine infinity point counts as on-curve;
otherwise check y² = x³ + 3 (BN254 G1: y² = x³ + 3 over Fq). -/
def g1OnCurve (P : Aff Nat) : Bool :=
  P.inf || fqOps.beq (fqOps.mul P.y P.y) (fqOps.add (fqOps.mul (fqOps.mul P.x P.x) P.x) 3)

/-- The `COEFF_B` of the BN254 G2 twist: 3/(9+u) in Fq2 (the `ark_bn254::g2`
curve constant). -/
def g2B : Nat × Nat :=
  (19485874751759354771024239261021720505790618469301721065564631296452457478373,
   266929791119991161246907387137283842545076965332900288569378510910307636690)

/-- `G2Affine::is_on_curve`: y² = x³ + b over Fq2. -/
def g2OnCurve (P : Aff (Nat × Nat)) : Bool :=
  P.inf || fq2Ops.beq (fq2Ops.mul P.y P.y)
            (fq2Ops.add (fq2Ops.mul (fq2Ops.mul P.x P.x) P.x) g2B)

/-- `G2Affine::is_in_correct_subgroup_assuming_on_curve`, embedded by its
specification: the point is annihilated by the prime subgroup order `r`. -/
def g2InSubgroup (P : Aff (Nat × Nat)) : Bool :=
  fq2Ops.beq (jacMul fq2Ops rScalar (jacOfAffine fq2Ops P)).z fq2Ops.zero

/-! ## errors.rs — `ContractError`

`InsufficientDeposit` carries the two u128 amounts; the other payloads are the
human-readable strings built at the raise site. -/

inductive ContractError where
  | VerificationKeyNotFound (circuit : String)
  | ProofVerificationFailed
  | InvalidProofFormat (msg : String)
  | InvalidPublicSignals (msg : String)
  | ContractPaused
  | Unauthorized
  | CredentialNotFound (id : String)
  | CredentialExpired (id : String)
  | InsufficientDeposit (required attached : Nat)
  | InvalidVerificationKey (msg : String)
deriving DecidableEq

/-! ## verifier.rs — field-element and point parsing -/

/-- The numeric value of an ASCII digit (`char::to_digit(10)` on a digit). -/
def digitVal (c : Char) : Nat := c.toNat - 48

/-- The `ark_ff` `FromStr` implementation for `Fp`, specialized to a prime
modulus `m`: reject the empty string, accept "0", otherwise fold the decimal
digits with `res = res * 10 + digit` computed in the field (hence reduction
modulo `m`), rejecting any non-digit character and a leading zero. -/
def arkFromStrGo (m : Nat) : List Char → Nat → Bool → Option Nat
  | [], acc, _ => some acc
  | ch :: rest, acc, first =>
    if ch.isDigit then
      let d := digitVal ch
      if first && d == 0 then none
      else arkFromStrGo m rest ((acc * 10 + d) % m) false
    else none

def arkFromStr (m : Nat) (s : String) : Option Nat :=
  if s = "" then none
  else if s = "0" then some 0
  else arkFromStrGo m s.data 0 true

/-- `parse_field_element::<F>` from verifier.rs, with the field given by its
modulus `m` (`q` for Fq, `rScalar` for Fr). -/
def parse_field_element (m : Nat) (s : String) : Except ContractError Nat :=
  match arkFromStr m s with
  | some v => .ok v
  | none => .error (.InvalidProofFormat s!"Cannot parse field element: {s}")

/-- `parse_g1_point` from verifier.rs: read indices 0 and 1 as Fq (ignoring a
trailing projective "1"), build the affine point unchecked, then require it to
be on the curve.  BN254 G1 has cofactor 1, so no subgroup check. -/
def parse_g1_point (coords : List String) : Except ContractError (Aff Nat) :=
  match coords with
  | c0 :: c1 :: _ => do
    let x ← parse_field_element q c0
    let y ← parse_field_element q c1
    let point : Aff Nat := ⟨x, y, false⟩
    if !(g1OnCurve point) then
      .error (.InvalidProofFormat "G1 point is not on curve")
    else
      .ok point
  | _ => .error (.InvalidProofFormat "G1 point requires at least 2 coordinates")

/-- `parse_g2_point` from verifier.rs.  The wire format (snarkjs) orders each
Fq2 pair as [c1, c0]; the parser reads `coords[i][0]` as c1 and `coords[i][1]`
as c0 and builds `Fq2::new(c0, c1)`.  Only the first two pairs are examined;
the match arms reproduce the two length guards (`coords.len() < 2`,
`coords[0].len() < 2 || coords[1].len() < 2`).  After the on-curve check the
point must also lie in the prime-order subgroup. -/
def parse_g2_point (coords : List (List String)) : Except ContractError (Aff (Nat × Nat)) :=
  match coords with
  | pair0 :: pair1 :: _ =>
    match pair0, pair1 with
    | x1s :: x0s :: _, y1s :: y0s :: _ => do
      let xc1 ← parse_field_element q x1s
      let xc0 ← parse_field_element q x0s
      let yc1 ← parse_field_element q y1s
      let yc0 ← parse_field_element q y0s
      let point : Aff (Nat × Nat) := ⟨(xc0, xc1), (yc0, yc1), false⟩
      if !(g2OnCurve point) then
        .error (.InvalidProofFormat "G2 point is not on curve")
      else if !(g2InSubgroup point) then
        .error (.InvalidProofFormat "G2 point is not in the correct subgroup")
      else
        .ok point
    | _, _ => .error (.InvalidProofFormat "G2 coordinate pair requires 2 elements")
  | _ => .error (.InvalidProofFormat "G2 point requires at least 2 coordinate pairs")

/-! ## types.rs — proof and verification-key wire types -/

structure Groth16Proof where
  pi_a : List String
  pi_b : List (List String)
  pi_c : List String
deriving DecidableEq

structure VerificationKey where
  alpha : List String
  beta : List (List String)
  gamma : List (List String)
  delta : List (List String)
  ic : List (List String)
deriving DecidableEq

/-! ## The pairing as a parameter

`Bn254::multi_pairing` and the target group are supplied by arkworks; the
verifier only ever feeds it the four prepared point pairs and asks whether the
result `is_zero` (the additive identity of the target group).  Every theorem
below quantifies over this model. -/

structure PairingModel where
  GT : Type
  multiPairing : List (Aff Nat) → List (Aff (Nat × Nat)) → GT
  isZero : GT → Bool

/-- `Vec`-building loop over `vk.ic` (`for ic_coord in &vk.ic { push(parse?) }`). -/
def parseAll {α : Type} (f : List String → Except ContractError α) :
    List (List String) → Except ContractError (List α)
  | [] => .ok []
  | c :: cs => do
    let p ← f c
    let ps ← parseAll f cs
    .ok (p :: ps)

/-- The `vk_x` accumulation loop of `verify_groth16_proof`:
`vk_x = ic[0]; for (i, s) in signals: vk_x += ic[i+1] * parse_fr(s)`.
The loop indexes `ic_points[i + 1]`, which under the arity guard is exactly a
walk over `signals.zip ic_rest`. -/
def vkxLoop (acc : Jac Nat) : List (String × Aff Nat) → Except ContractError (Jac Nat)
  | [] => .ok acc
  | (s, pt) :: rest => do
    let signal ← parse_field_element rScalar s
    vkxLoop (jacAdd fqOps acc (jacMul fqOps signal (jacOfAffine fqOps pt))) rest

/-- Affine negation `-a` (negate y), used for `e(-A, B)`. -/
def g1Neg (P : Aff Nat) : Aff Nat := ⟨P.x, fqOps.sub fqOps.zero P.y, P.inf⟩

/-- `verify_groth16_proof` from verifier.rs. -/
def verify_groth16_proof (M : PairingModel) (vk : VerificationKey)
    (proof : Groth16Proof) (public_signals : List String) :
    Except ContractError Bool := do
  if vk.ic.length ≠ public_signals.length + 1 then
    let expected := vk.ic.length - 1
    let got := public_signals.length
    .error (.InvalidPublicSignals s!"Expected {expected} public signals, got {got}")
  else
    let a ← parse_g1_point proof.pi_a
    let b ← parse_g2_point proof.pi_b
    let c ← parse_g1_point proof.pi_c
    let alpha ← parse_g1_point vk.alpha
    let beta ← parse_g2_point vk.beta
    let gamma ← parse_g2_point vk.gamma
    let delta ← parse_g2_point vk.delta
    let ic_points ← parseAll parse_g1_point vk.ic
    match ic_points with
    | [] =>
      -- Unreachable: the arity guard forces `vk.ic.length = signals + 1 ≥ 1`,
      -- and `parseAll` preserves length.  (Rust would panic on `ic_points[0]`.)
      .error (.InvalidPublicSignals "unreachable: empty IC")
    | ic0 :: icRest => do
      let vk_x ← vkxLoop (jacOfAffine fqOps ic0) (public_signals.zip icRest)
      let vk_x_affine := g1JacToAffine vk_x
      let neg_a := g1Neg a
      .ok (M.isZero (M.multiPairing [neg_a, alpha, vk_x_affine, c] [b, beta, gamma, delta]))

/-! ## types.rs — contract-level types -/

inductive CircuitType where
  | VerifiedBuilder
  | GrantTrackRecord
  | TeamAttestation
deriving DecidableEq

/-- `CircuitType::as_key` (also its `Display`): the kebab-case storage key. -/
def CircuitType.as_key : CircuitType → String
  | .VerifiedBuilder => "verified-builder"
  | .GrantTrackRecord => "grant-track-record"
  | .TeamAttestation => "team-attestation"

structure VerifyProofInput where
  circuit_type : CircuitType
  proof : Groth16Proof
  public_signals : List String
  store_credential : Bool
  custom_expiration : Option Nat
  claim : Option String
deriving DecidableEq

structure Credential where
  id : String
  owner : String
  circuit_type : CircuitType
  public_signals : List String
  verified_at : Nat
  expires_at : Nat
  claim : Option String
deriving DecidableEq

/-- `gas_used` reports the delta of the host gas counter, which is not part of
the contract state; it is modelled as 0. -/
structure VerificationResult where
  valid : Bool
  credential_id : Option String
  gas_used : Nat
deriving DecidableEq

structure ContractConfig where
  owner : String
  proposed_owner : Option String
  is_paused : Bool
  default_expiration_secs : Nat
  storage_cost_per_credential : Nat
deriving DecidableEq

/-- `ContractConfig::DEFAULT_EXPIRATION_SECS` — 30 days in seconds. -/
def ContractConfig.DEFAULT_EXPIRATION_SECS : Nat := 30 * 24 * 60 * 60

/-- `ContractConfig::DEFAULT_STORAGE_COST` — 0.01 NEAR in yoctoNEAR. -/
def ContractConfig.DEFAULT_STORAGE_COST : Nat := 10000000000000000000000

structure ContractStats where
  total_verifications : Nat
  total_credentials : Nat
  is_paused : Bool
  verification_keys_registered : Nat
deriving DecidableEq

/-! ## Host environment and machine-integer bounds -/

/-- The NEAR host environment visible to a single call: `predecessor_account_id`,
`attached_deposit` (yoctoNEAR, u128) and `block_timestamp` (nanoseconds, u64). -/
structure Ctx where
  predecessor : String
  attachedDeposit : Nat
  blockTimestamp : Nat
deriving DecidableEq

def u32Mod : Nat := 2 ^ 32
def u64Mod : Nat := 2 ^ 64

/-! ## Persistent-collection models

`LookupMap` is modelled as an association list with first-match lookup;
insertion replaces any previous binding.  `IterableSet`/`LookupSet` are
modelled as duplicate-free lists in insertion order. -/

def alookup {α : Type} : List (String × α) → String → Option α
  | [], _ => none
  | (k, v) :: rest, key => if k = key then some v else alookup rest key

def aremove {α : Type} (key : String) : List (String × α) → List (String × α)
  | [] => []
  | (k, v) :: rest => if k = key then aremove key rest else (k, v) :: aremove key rest

def ainsert {α : Type} (key : String) (v : α) (l : List (String × α)) : List (String × α) :=
  (key, v) :: aremove key l

def sinsert (id : String) (s : List String) : List String :=
  if id ∈ s then s else s ++ [id]

def sremove (id : String) : List String → List String
  | [] => []
  | x :: rest => if x = id then sremove id rest else x :: sremove id rest

/-! ## Contract state (lib.rs `ZKVerifier` struct) -/

structure ZKVerifier where
  owner : String
  proposed_owner : Option String
  admins : List String
  is_paused : Bool
  default_expiration_secs : Nat
  storage_cost_per_credential : Nat
  verification_keys : List (String × VerificationKey)
  credentials : List (String × Credential)
  credentials_by_owner : List (String × List String)
  total_verifications : Nat
  total_credentials : Nat
  vk_count : Nat
  credential_nonce : Nat
  revoked_credentials : List String
deriving DecidableEq

/-- `ZKVerifier::new(owner)` — the `#[init]` one-shot initializer. -/
def ZKVerifier.new (owner : String) : ZKVerifier where
  owner := owner
  proposed_owner := none
  admins := []
  is_paused := false
  default_expiration_secs := ContractConfig.DEFAULT_EXPIRATION_SECS
  storage_cost_per_credential := ContractConfig.DEFAULT_STORAGE_COST
  verification_keys := []
  credentials := []
  credentials_by_owner := []
  total_verifications := 0
  total_credentials := 0
  vk_count := 0
  credential_nonce := 0
  revoked_credentials := []

/-! ## storage.rs -/

namespace Storage

/-- `generate_credential_id`: `"cred-" ++ hex(sha256(owner ":" key ":" nonce)[..16])`.
The host primitive `env::sha256` (together with the hex truncation) is the
parameter `sha`. -/
def generate_credential_id (sha : String → String) (owner : String)
    (circuit_type : CircuitType) (nonce : Nat) : String :=
  "cred-" ++ sha (owner ++ ":" ++ circuit_type.as_key ++ ":" ++ toString nonce)

/-- `store_credential`: write the record into the main map, create the owner
set on first use, insert the id into the owner set. -/
def store_credential (credentials : List (String × Credential))
    (credentials_by_owner : List (String × List String)) (credential : Credential) :
    List (String × Credential) × List (String × List String) :=
  let id := credential.id
  let owner := credential.owner
  let credentials := ainsert id credential credentials
  let credentials_by_owner :=
    match alookup credentials_by_owner owner with
    | none => ainsert owner ([] : List String) credentials_by_owner
    | some _ => credentials_by_owner
  let owner_set := (alookup credentials_by_owner owner).getD []
  (credentials, ainsert owner (sinsert id owner_set) credentials_by_owner)

/-- storage.rs `is_credential_valid`: exists-and-not-expired probe. -/
def is_credential_valid (credentials : List (String × Credential)) (now : Nat)
    (credential_id : String) : Option Bool :=
  (alookup credentials credential_id).map (fun cred => decide (cred.expires_at > now))

/-- storage.rs `remove_credential`: only the owner removes; returns the two
updated maps and whether a removal happened. -/
def remove_credential (credentials : List (String × Credential))
    (credentials_by_owner : List (String × List String)) (credential_id : String)
    (caller : String) :
    List (String × Credential) × List (String × List String) × Bool :=
  match alookup credentials credential_id with
  | none => (credentials, credentials_by_owner, false)
  | some cred =>
    if cred.owner ≠ caller then (credentials, credentials_by_owner, false)
    else
      let owner := cred.owner
      let credentials := aremove credential_id credentials
      let credentials_by_owner :=
        match alookup credentials_by_owner owner with
        | some owner_set => ainsert owner (sremove credential_id owner_set) credentials_by_owner
        | none => credentials_by_owner
      (credentials, credentials_by_owner, true)

/-- storage.rs `get_credentials_by_owner` walk: count every id passing the
expiry filter into `total`, collect those ranked in `[offset, offset+limit)`. -/
def paginateGo (credentials : List (String × Credential)) (now : Nat)
    (include_expired : Bool) (offset limit : Nat) :
    List String → List Credential → Nat → List Credential × Nat
  | [], result, total => (result, total)
  | id :: rest, result, total =>
    match alookup credentials id with
    | none => paginateGo credentials now include_expired offset limit rest result total
    | some cred =>
      if include_expired || decide (cred.expires_at > now) then
        let result :=
          if total ≥ offset && result.length < limit then result ++ [cred] else result
        paginateGo credentials now include_expired offset limit rest result (total + 1)
      else
        paginateGo credentials now include_expired offset limit rest result total

def get_credentials_by_owner (credentials : List (String × Credential))
    (credentials_by_owner : List (String × List String)) (owner : String)
    (include_expired : Bool) (offset limit : Nat) (now : Nat) :
    List Credential × Nat :=
  match alookup credentials_by_owner owner with
  | none => ([], 0)
  | some owner_set => paginateGo credentials now include_expired offset limit owner_set [] 0

end Storage

/-! ## lib.rs — entry points

Every mutating entry point returns `Except ContractError (ZKVerifier × α)`;
`.error` is a host panic: the transaction aborts and no state write survives
(rollback is by construction, since the old state stays with the caller).
View methods take the state immutably and return only a value. -/

namespace ZKVerifier

/-- `assert_owner`. -/
def assert_owner (ctx : Ctx) (st : ZKVerifier) : Except ContractError Unit :=
  if ctx.predecessor ≠ st.owner then .error .Unauthorized else .ok ()

/-- `assert_owner_or_admin`. -/
def assert_owner_or_admin (ctx : Ctx) (st : ZKVerifier) : Except ContractError Unit :=
  if ctx.predecessor ≠ st.owner ∧ ctx.predecessor ∉ st.admins then .error .Unauthorized
  else .ok ()

/-- `assert_not_paused`. -/
def assert_not_paused (st : ZKVerifier) : Except ContractError Unit :=
  if st.is_paused then .error .ContractPaused else .ok ()

/-- `set_verification_key(circuit_type, vk)` — owner or admin; rejects an empty
IC; replaces atomically; bumps `vk_count` only for a new key. -/
def set_verification_key (ctx : Ctx) (st : ZKVerifier) (circuit_type : CircuitType)
    (vk : VerificationKey) : Except ContractError (ZKVerifier × Unit) := do
  (assert_owner_or_admin ctx st).bind fun _ =>
  (assert_not_paused st).bind fun _ =>
  if vk.ic.isEmpty then
    .error (.InvalidVerificationKey "IC array must not be empty")
  else
    let key := circuit_type.as_key
    let is_new := (alookup st.verification_keys key).isNone
    let st := { st with verification_keys := ainsert key vk st.verification_keys }
    let st := if is_new then { st with vk_count := (st.vk_count + 1) % u32Mod } else st
    .ok (st, ())

/-- `set_paused(paused)` — owner only. -/
def set_paused (ctx : Ctx) (st : ZKVerifier) (paused : Bool) :
    Except ContractError (ZKVerifier × Unit) :=
  (assert_owner ctx st).bind fun _ =>
  .ok ({ st with is_paused := paused }, ())

/-- `propose_owner(new_owner)` — owner only (note: no pause check in the source). -/
def propose_owner (ctx : Ctx) (st : ZKVerifier) (new_owner : String) :
    Except ContractError (ZKVerifier × Unit) :=
  (assert_owner ctx st).bind fun _ =>
  .ok ({ st with proposed_owner := some new_owner }, ())

/-- `accept_ownership()` — caller must equal the proposed owner; swaps owner
and clears the proposal.  Not pause-gated. -/
def accept_ownership (ctx : Ctx) (st : ZKVerifier) :
    Except ContractError (ZKVerifier × Unit) :=
  match st.proposed_owner with
  | none => .error .Unauthorized
  | some proposed =>
    if ctx.predecessor ≠ proposed then .error .Unauthorized
    else .ok ({ st with owner := ctx.predecessor, proposed_owner := none }, ())

/-- `add_admin(account)` — owner only (no pause check in the source). -/
def add_admin (ctx : Ctx) (st : ZKVerifier) (account : String) :
    Except ContractError (ZKVerifier × Unit) :=
  (assert_owner ctx st).bind fun _ =>
  .ok ({ st with admins := sinsert account st.admins }, ())

/-- `remove_admin(account)` — owner only (no pause check in the source). -/
def remove_admin (ctx : Ctx) (st : ZKVerifier) (account : String) :
    Except ContractError (ZKVerifier × Unit) :=
  (assert_owner ctx st).bind fun _ =>
  .ok ({ st with admins := sremove account st.admins }, ())

/-- `is_admin(account)` — view. -/
def is_admin (st : ZKVerifier) (account : String) : Bool :=
  account ∈ st.admins

/-- `set_default_expiration(seconds)` — owner only (no pause check in the source). -/
def set_default_expiration (ctx : Ctx) (st : ZKVerifier) (seconds : Nat) :
    Except ContractError (ZKVerifier × Unit) :=
  (assert_owner ctx st).bind fun _ =>
  .ok ({ st with default_expiration_secs := seconds }, ())

/-- `verify_proof(input)` — `#[payable]`; pause-gated; VK lookup aborts when
missing; the Groth16 verifier result is folded with `Err(_) => false`; the
deposit is only checked on the `valid && store_credential` path. -/
def verify_proof (M : PairingModel) (sha : String → String) (ctx : Ctx)
    (st : ZKVerifier) (input : VerifyProofInput) :
    Except ContractError (ZKVerifier × VerificationResult) :=
  (assert_not_paused st).bind fun _ =>
  let key := input.circuit_type.as_key
  match alookup st.verification_keys key with
  | none => .error (.VerificationKeyNotFound key)
  | some vk =>
    let is_valid :=
      match verify_groth16_proof M vk input.proof input.public_signals with
      | .ok valid => valid
      | .error _ => false
    let st := { st with total_verifications := (st.total_verifications + 1) % u64Mod }
    if is_valid && input.store_credential then
      if ctx.attachedDeposit < st.storage_cost_per_credential then
        .error (.InsufficientDeposit st.storage_cost_per_credential ctx.attachedDeposit)
      else
        let caller := ctx.predecessor
        let now_secs := ctx.blockTimestamp / 1000000000
        let expiry := input.custom_expiration.getD st.default_expiration_secs
        let st := { st with credential_nonce := (st.credential_nonce + 1) % u64Mod }
        let id := Storage.generate_credential_id sha caller input.circuit_type st.credential_nonce
        let expires_at := (now_secs + expiry) % u64Mod
        let credential : Credential :=
          { id := id, owner := caller, circuit_type := input.circuit_type,
            public_signals := input.public_signals, verified_at := now_secs,
            expires_at := expires_at, claim := input.claim }
        let maps := Storage.store_credential st.credentials st.credentials_by_owner credential
        let st := { st with credentials := maps.1, credentials_by_owner := maps.2,
                            total_credentials := (st.total_credentials + 1) % u64Mod }
        .ok (st, { valid := is_valid, credential_id := some id, gas_used := 0 })
    else
      .ok (st, { valid := is_valid, credential_id := none, gas_used := 0 })

/-- `verify_proof_view(input)` — pause-gated (the source calls
`assert_not_paused` here too), VK lookup aborts when missing, never stores. -/
def verify_proof_view (M : PairingModel) (st : ZKVerifier) (input : VerifyProofInput) :
    Except ContractError VerificationResult :=
  (assert_not_paused st).bind fun _ =>
  let key := input.circuit_type.as_key
  match alookup st.verification_keys key with
  | none => .error (.VerificationKeyNotFound key)
  | some vk =>
    let is_valid :=
      match verify_groth16_proof M vk input.proof input.public_signals with
      | .ok valid => valid
      | .error _ => false
    .ok { valid := is_valid, credential_id := none, gas_used := 0 }

/-- `get_credential(id)` — view. -/
def get_credential (st : ZKVerifier) (credential_id : String) : Option Credential :=
  alookup st.credentials credential_id

/-- lib.rs `is_credential_valid(id)` — view: tombstone first, then the
storage-level exists-and-not-expired probe. -/
def is_credential_valid (st : ZKVerifier) (now : Nat) (credential_id : String) :
    Option Bool :=
  if credential_id ∈ st.revoked_credentials then some false
  else Storage.is_credential_valid st.credentials now credential_id

/-- `get_credentials_by_owner(owner, include_expired?, offset?, limit?)` — view. -/
def get_credentials_by_owner (st : ZKVerifier) (now : Nat) (owner : String)
    (include_expired : Option Bool) (offset limit : Option Nat) :
    List Credential × Nat × Bool :=
  let pair := Storage.get_credentials_by_owner st.credentials st.credentials_by_owner owner
    (include_expired.getD false) (offset.getD 0) (limit.getD 50) now
  (pair.1, pair.2, decide (offset.getD 0 + pair.1.length < pair.2))

/-- `remove_credential(id)` — pause-gated, then the storage-level owner-only
removal; decrements `total_credentials` (saturating) on success. -/
def remove_credential (ctx : Ctx) (st : ZKVerifier) (credential_id : String) :
    Except ContractError (ZKVerifier × Bool) :=
  (assert_not_paused st).bind fun _ =>
  let caller := ctx.predecessor
  let res := Storage.remove_credential st.credentials st.credentials_by_owner credential_id caller
  let removed := res.2.2
  let st := { st with credentials := res.1, credentials_by_owner := res.2.1 }
  let st := if removed then { st with total_credentials := st.total_credentials - 1 } else st
  .ok (st, removed)

/-- `revoke_credential(id, reason)` — owner or admin, pause-gated; erases any
stored data for the id and tombstones it unconditionally. -/
def revoke_credential (ctx : Ctx) (st : ZKVerifier) (credential_id : String) :
    Except ContractError (ZKVerifier × Unit) :=
  (assert_owner_or_admin ctx st).bind fun _ =>
  (assert_not_paused st).bind fun _ =>
  let st :=
    match alookup st.credentials credential_id with
    | some cred =>
      let credentials := aremove credential_id st.credentials
      let credentials_by_owner :=
        match alookup st.credentials_by_owner cred.owner with
        | some owner_set =>
          ainsert cred.owner (sremove credential_id owner_set) st.credentials_by_owner
        | none => st.credentials_by_owner
      { st with credentials := credentials, credentials_by_owner := credentials_by_owner,
                total_credentials := st.total_credentials - 1 }
    | none => st
  .ok ({ st with revoked_credentials := sinsert credential_id st.revoked_credentials }, ())

/-- `is_credential_revoked(id)` — view. -/
def is_credential_revoked (st : ZKVerifier) (credential_id : String) : Bool :=
  credential_id ∈ st.revoked_credentials

/-- `get_config()` — view. -/
def get_config (st : ZKVerifier) : ContractConfig :=
  { owner := st.owner, proposed_owner := st.proposed_owner, is_paused := st.is_paused,
    default_expiration_secs := st.default_expiration_secs,
    storage_cost_per_credential := st.storage_cost_per_credential }

/-- `get_stats()` — view. -/
def get_stats (st : ZKVerifier) : ContractStats :=
  { total_verifications := st.total_verifications,
    total_credentials := st.total_credentials,
    is_paused := st.is_paused,
    verification_keys_registered := st.vk_count }

/-- `has_verification_key(circuit_type)` — view. -/
def has_verification_key (st : ZKVerifier) (circuit_type : CircuitType) : Bool :=
  (alookup st.verification_keys circuit_type.as_key).isSome

/-- `get_storage_cost()` — view. -/
def get_storage_cost (st : ZKVerifier) : String :=
  toString st.storage_cost_per_credential

end ZKVerifier

/-! ## Lemmas about the collection models -/

theorem alookup_aremove {α : Type} (k k' : String) (l : List (String × α)) :
    alookup (aremove k l) k' = if k = k' then none else alookup l k' := by
  induction l with
  | nil => simp [aremove, alookup]
  | cons p rest ih =>
    obtain ⟨pk, pv⟩ := p
    by_cases hpk : pk = k
    · subst hpk
      by_cases hk : pk = k'
      · subst hk; simp [aremove, alookup, ih]
      · simp [aremove, alookup, hk, ih]
    · by_cases hk : pk = k'
      · subst hk
        simp [aremove, alookup, hpk, ih]
        intro h; exact absurd h.symm hpk
      · simp [aremove, alookup, hpk, hk, ih]

theorem alookup_ainsert {α : Type} (k k' : String) (v : α) (l : List (String × α)) :
    alookup (ainsert k v l) k' = if k = k' then some v else alookup l k' := by
  by_cases hk : k = k'
  · subst hk; simp [ainsert, alookup]
  · simp [ainsert, alookup, hk, alookup_aremove]

theorem mem_sinsert (id id' : String) (s : List String) :
    id' ∈ sinsert id s ↔ id' ∈ s ∨ id' = id := by
  unfold sinsert
  by_cases h : id ∈ s
  · simp [h]
    intro he; subst he; exact h
  · simp [h, List.mem_append]

theorem mem_sremove (id id' : String) (s : List String) :
    id' ∈ sremove id s ↔ id' ∈ s ∧ id' ≠ id := by
  induction s with
  | nil => simp [sremove]
  | cons x rest ih =>
    by_cases hx : x = id
    · subst hx; simp [sremove, ih, List.mem_cons]; tauto
    · simp [sremove, hx, ih, List.mem_cons]
      constructor
      · rintro (he | ⟨h1, h2⟩)
        · subst he; exact ⟨Or.inl rfl, hx⟩
        · exact ⟨Or.inr h1, h2⟩
      · rintro ⟨he | h1, h2⟩
        · subst he; exact Or.inl rfl
        · exact Or.inr ⟨h1, h2⟩

/-! ## Concrete fixtures (the BN254 group generators, in wire format)

`g2GenWire` carries the snarkjs ordering: each Fq2 pair is [c1, c0]. -/

def g1GenAff : Aff Nat := ⟨1, 2, false⟩

def g2GenAff : Aff (Nat × Nat) :=
  ⟨(10857046999023057135944570762232829481370756359578518086990519993285655852781,
    11559732032986387107991004021392285783925812861821192530917403151452391805634),
   (8495653923123431417604973247489272438418190587263600148770280649306958101930,
    4082367875863433681332203403145435568316851327593401208105741076214120093531), false⟩

def g1GenWire : List String := ["1", "2", "1"]

def g2GenWire : List (List String) :=
  [["11559732032986387107991004021392285783925812861821192530917403151452391805634",
    "10857046999023057135944570762232829481370756359578518086990519993285655852781"],
   ["4082367875863433681332203403145435568316851327593401208105741076214120093531",
    "8495653923123431417604973247489272438418190587263600148770280649306958101930"],
   ["1", "0"]]

/-- A verification key whose points are the group generators and whose IC has a
single entry (zero public inputs). -/
def sampleVK : VerificationKey :=
  { alpha := g1GenWire, beta := g2GenWire, gamma := g2GenWire, delta := g2GenWire,
    ic := [g1GenWire] }

def sampleProof : Groth16Proof :=
  { pi_a := g1GenWire, pi_b := g2GenWire, pi_c := g1GenWire }

/-- A pairing model for witnesses: the theorems quantify over every
`PairingModel`, so instantiating with the one-point target group is enough to
exercise them. -/
def unitPairing : PairingModel where
  GT := Unit
  multiPairing _ _ := ()
  isZero _ := true

/-- A state with an owner, the sample verification key installed for
`verified-builder`, and nothing else. -/
def stWithVK : ZKVerifier :=
  { ZKVerifier.new "owner" with
    verification_keys := ainsert "verified-builder" sampleVK [] }

/-- A proof whose `pi_a` is the off-curve point (5, 5): parsing fails before
any pairing work. -/
def badProof : Groth16Proof :=
  { pi_a := ["5", "5", "1"], pi_b := g2GenWire, pi_c := g1GenWire }

/-- Shared helper: the arity guard fires first in `verify_groth16_proof`. -/
theorem verify_groth16_arity_error (M : PairingModel) (vk : VerificationKey)
    (proof : Groth16Proof) (public_signals : List String)
    (h : vk.ic.length ≠ public_signals.length + 1) :
    verify_groth16_proof M vk proof public_signals =
      .error (.InvalidPublicSignals
        s!"Expected {vk.ic.length - 1} public signals, got {public_signals.length}") := by
  unfold verify_groth16_proof
  rw [if_pos h]

/-! ## C4 -/

/-- C4: for every verification key and public-signal list with
`len(vk.ic) ≠ len(public_signals) + 1`, `verify_groth16_proof` returns the
"invalid public signals" error and never returns `Ok(true)` or `Ok(false)`,
whatever the proof contains. -/
theorem c4_arity_mismatch_is_hard_error (M : PairingModel) (vk : VerificationKey)
    (proof : Groth16Proof) (public_signals : List String)
    (h : vk.ic.length ≠ public_signals.length + 1) :
    (∃ msg, verify_groth16_proof M vk proof public_signals =
      .error (.InvalidPublicSignals msg)) ∧
    ∀ b : Bool, verify_groth16_proof M vk proof public_signals ≠ .ok b := by
  have hrw := verify_groth16_arity_error M vk proof public_signals h
  exact ⟨⟨_, hrw⟩, fun b hb => by rw [hrw] at hb; exact Except.noConfusion hb⟩

/-- C4 witness: a one-entry IC with one public signal (arity 1 ≠ 2). -/
theorem c4_arity_mismatch_is_hard_error_witness :
    (sampleVK.ic.length ≠ (["1"] : List String).length + 1) ∧
    ((∃ msg, verify_groth16_proof unitPairing sampleVK sampleProof ["1"] =
        .error (.InvalidPublicSignals msg)) ∧
      ∀ b : Bool, verify_groth16_proof unitPairing sampleVK sampleProof ["1"] ≠ .ok b) :=
  ⟨by decide, c4_arity_mismatch_is_hard_error unitPairing sampleVK sampleProof ["1"] (by decide)⟩

/-! ## C7 -/

/-- C7: `is_credential_valid(id)` returns `Some(false)` when the id is
tombstoned; otherwise `Some(expires_at > now)` when the credential exists;
otherwise `None`. -/
theorem c7_is_credential_valid_spec (st : ZKVerifier) (now : Nat) (id : String) :
    ZKVerifier.is_credential_valid st now id =
      (if id ∈ st.revoked_credentials then some false
       else
         match alookup st.credentials id with
         | some cred => some (decide (cred.expires_at > now))
         | none => none) := by
  unfold ZKVerifier.is_credential_valid Storage.is_credential_valid
  by_cases h : id ∈ st.revoked_credentials
  · simp [h]
  · simp [h]
    cases alookup st.credentials id <;> simp

/-! ## C10 -/

/-- C10: in `verify_proof` the storage deposit is only checked when the proof
verified and `store_credential` is set: with `store_credential = true`, an
insufficient deposit and a proof that does not verify, the call completes with
`valid = false`, `credential_id = None` and only `total_verifications` bumped;
and with `store_credential = false` the attached deposit never influences the
outcome. -/
theorem c10_deposit_checked_only_when_storing (M : PairingModel)
    (sha : String → String) (ctx : Ctx) (st : ZKVerifier) (vk : VerificationKey)
    (input input2 : VerifyProofInput) (d d' : Nat)
    (hp : st.is_paused = false)
    (hvk : alookup st.verification_keys input.circuit_type.as_key = some vk)
    (hfail : verify_groth16_proof M vk input.proof input.public_signals ≠ .ok true)
    (hstore : input.store_credential = true)
    (hdep : ctx.attachedDeposit < st.storage_cost_per_credential)
    (hnostore : input2.store_credential = false) :
    ZKVerifier.verify_proof M sha ctx st input =
      .ok ({ st with total_verifications := (st.total_verifications + 1) % u64Mod },
           { valid := false, credential_id := none, gas_used := 0 }) ∧
    ZKVerifier.verify_proof M sha { ctx with attachedDeposit := d } st input2 =
      ZKVerifier.verify_proof M sha { ctx with attachedDeposit := d' } st input2 := by
  constructor
  · unfold ZKVerifier.verify_proof ZKVerifier.assert_not_paused
    rw [hp]
    simp only [if_neg Bool.false_ne_true, Except.bind, hvk]
    have hvalid : (match verify_groth16_proof M vk input.proof input.public_signals with
        | .ok valid => valid
        | .error _ => false) = false := by
      cases hres : verify_groth16_proof M vk input.proof input.public_signals with
      | ok v =>
        cases v with
        | true => exact absurd hres hfail
        | false => rfl
      | error e => rfl
    rw [hvalid]
    simp
  · unfold ZKVerifier.verify_proof ZKVerifier.assert_not_paused
    rw [hp]
    simp only [if_neg Bool.false_ne_true, Except.bind]
    cases alookup st.verification_keys input2.circuit_type.as_key with
    | none => rfl
    | some vk2 =>
      simp only [hnostore, Bool.and_false]
      rfl

/-- A stand-in for the host `env::sha256`-based id digest in witnesses;
the lib.rs theorems quantify over the digest function. -/
def sampleSha : String → String := fun _ => "00"

def sampleCtx : Ctx := { predecessor := "alice", attachedDeposit := 0,
                         blockTimestamp := 1700000000000000000 }

def c10Input : VerifyProofInput :=
  { circuit_type := .VerifiedBuilder, proof := badProof, public_signals := [],
    store_credential := true, custom_expiration := none, claim := none }

def c10Input2 : VerifyProofInput :=
  { circuit_type := .VerifiedBuilder, proof := badProof, public_signals := [],
    store_credential := false, custom_expiration := none, claim := none }

/-- C10 witness: a failing-to-parse proof with `store_credential = true` and a
zero deposit completes with `valid = false`; without storage the deposit is
irrelevant. -/
theorem c10_deposit_checked_only_when_storing_witness :
    (stWithVK.is_paused = false ∧
     alookup stWithVK.verification_keys c10Input.circuit_type.as_key = some sampleVK ∧
     verify_groth16_proof unitPairing sampleVK c10Input.proof c10Input.public_signals ≠ .ok true ∧
     c10Input.store_credential = true ∧
     sampleCtx.attachedDeposit < stWithVK.storage_cost_per_credential ∧
     c10Input2.store_credential = false) ∧
    (ZKVerifier.verify_proof unitPairing sampleSha sampleCtx stWithVK c10Input =
      .ok ({ stWithVK with
              total_verifications := (stWithVK.total_verifications + 1) % u64Mod },
           { valid := false, credential_id := none, gas_used := 0 }) ∧
     ZKVerifier.verify_proof unitPairing sampleSha { sampleCtx with attachedDeposit := 3 } stWithVK c10Input2 =
       ZKVerifier.verify_proof unitPairing sampleSha { sampleCtx with attachedDeposit := 7 } stWithVK c10Input2) :=
  ⟨⟨by decide, by decide, by decide, by decide, by decide, by decide⟩,
   c10_deposit_checked_only_when_storing unitPairing sampleSha sampleCtx stWithVK sampleVK
     c10Input c10Input2 3 7 (by decide) (by decide) (by decide) (by decide) (by decide)
     (by decide)⟩

/-! ## C5 -/

/-- The plain (unreduced) decimal value of a string of digits. -/
def decimalValue (s : String) : Nat :=
  s.data.foldl (fun x c => x * 10 + digitVal c) 0

/-- The acceptance domain of the `ark_ff` decimal parser: the empty string is
rejected, "0" is accepted, and any other string is accepted exactly when it is
all digits with a nonzero leading digit. -/
def arkAccepts (s : String) : Bool :=
  if s = "" then false
  else if s = "0" then true
  else
    match s.data with
    | [] => false
    | c :: rest => c.isDigit && digitVal c != 0 && rest.all Char.isDigit

theorem str_ext (s t : String) (h : s.data = t.data) : s = t := by
  cases s; cases t; exact congrArg String.mk h

theorem decimalFold_mod_congr (m : Nat) (cs : List Char) :
    ∀ a b : Nat, a % m = b % m →
      (cs.foldl (fun x c => x * 10 + digitVal c) a) % m =
      (cs.foldl (fun x c => x * 10 + digitVal c) b) % m := by
  induction cs with
  | nil => intro a b h; simpa using h
  | cons c rest ih =>
    intro a b h
    simp only [List.foldl_cons]
    apply ih
    rw [Nat.add_mod, Nat.mul_mod, h, ← Nat.mul_mod, ← Nat.add_mod]

theorem arkFromStrGo_false_spec (m : Nat) (cs : List Char) (acc : Nat)
    (hacc : acc % m = acc) :
    arkFromStrGo m cs acc false =
      if cs.all Char.isDigit then
        some ((cs.foldl (fun x c => x * 10 + digitVal c) acc) % m)
      else none := by
  induction cs generalizing acc with
  | nil => simp [arkFromStrGo, hacc]
  | cons c rest ih =>
    by_cases hc : c.isDigit
    · have hred : ((acc * 10 + digitVal c) % m) % m = (acc * 10 + digitVal c) % m :=
        Nat.mod_mod_of_dvd _ dvd_rfl
      simp only [arkFromStrGo, hc, if_true, Bool.false_and, Bool.false_eq_true, if_false]
      rw [ih _ hred]
      by_cases hall : rest.all Char.isDigit
      · simp only [hall, List.all_cons, hc, Bool.true_and, if_true, List.foldl_cons]
        rw [decimalFold_mod_congr m rest _ _ hred]
      · simp [hall, List.all_cons, hc]
    · simp [arkFromStrGo, hc, List.all_cons]

/-- `arkFromStr` in closed form: accepted strings map to their decimal value
reduced modulo the modulus; everything else is rejected. -/
theorem arkFromStr_spec (m : Nat) (s : String) :
    arkFromStr m s = if arkAccepts s then some (decimalValue s % m) else none := by
  by_cases h0 : s = ""
  · subst h0; rfl
  · by_cases h1 : s = "0"
    · subst h1
      show some 0 = if arkAccepts "0" then some (decimalValue "0" % m) else none
      rw [show decimalValue "0" = 0 from rfl, Nat.zero_mod,
          if_pos (show arkAccepts "0" = true by decide)]
    · have hL : arkFromStr m s = arkFromStrGo m s.data 0 true := by
        unfold arkFromStr
        rw [if_neg h0, if_neg h1]
      have hR : arkAccepts s =
          (match s.data with
           | [] => false
           | c :: rest => c.isDigit && digitVal c != 0 && rest.all Char.isDigit) := by
        unfold arkAccepts
        rw [if_neg h0, if_neg h1]
      rw [hL, hR]
      cases hd : s.data with
      | nil => exact absurd (str_ext s "" (by rw [hd])) h0
      | cons c rest =>
        have hmatch : (match c :: rest with
            | [] => false
            | c :: rest => c.isDigit && digitVal c != 0 && rest.all Char.isDigit) =
            (c.isDigit && digitVal c != 0 && rest.all Char.isDigit) := rfl
        rw [hmatch]
        by_cases hc : c.isDigit
        · by_cases hz : digitVal c = 0
          · have hgo : arkFromStrGo m (c :: rest) 0 true = none := by
              conv_lhs => unfold arkFromStrGo
              rw [if_pos hc]
              simp [hz]
            have hreject : (c.isDigit && digitVal c != 0 && rest.all Char.isDigit) = false := by
              simp [hz]
            rw [hgo, hreject]
            rfl
          · have hgo : arkFromStrGo m (c :: rest) 0 true =
                arkFromStrGo m rest ((0 * 10 + digitVal c) % m) false := by
              conv_lhs => unfold arkFromStrGo
              rw [if_pos hc]
              simp [hz]
            rw [hgo, arkFromStrGo_false_spec m rest _ (Nat.mod_mod_of_dvd _ dvd_rfl)]
            have hval : (rest.foldl (fun x c => x * 10 + digitVal c)
                ((0 * 10 + digitVal c) % m)) % m = decimalValue s % m := by
              rw [decimalFold_mod_congr m rest _ _ (Nat.mod_mod_of_dvd _ dvd_rfl)]
              rw [decimalValue, hd, List.foldl_cons]
            by_cases hall : rest.all Char.isDigit
            · have haccT : (c.isDigit && digitVal c != 0 && rest.all Char.isDigit) = true := by
                simp [hc, hz, hall]
              rw [if_pos hall, hval, haccT]
              rfl
            · have hallf : rest.all Char.isDigit = false := by simpa using hall
              have hreject : (c.isDigit && digitVal c != 0 && rest.all Char.isDigit) = false := by
                simp [hallf]
              rw [hreject, hallf]
              rfl
        · have hcf : c.isDigit = false := by simpa using hc
          have hgo : arkFromStrGo m (c :: rest) 0 true = none := by
            conv_lhs => unfold arkFromStrGo
            rw [hcf]
            rfl
          have hreject : (c.isDigit && digitVal c != 0 && rest.all Char.isDigit) = false := by
            simp [hcf]
          rw [hgo, hreject]
          rfl

/-- Generic characterization of `parse_field_element` over any modulus. -/
theorem parse_field_element_spec (m : Nat) (s : String) :
    match parse_field_element m s with
    | .ok v => arkAccepts s = true ∧ v = decimalValue s % m
    | .error _ => arkAccepts s = false := by
  unfold parse_field_element
  rw [arkFromStr_spec]
  by_cases h : arkAccepts s
  · rw [if_pos h]
    exact ⟨h, rfl⟩
  · have hf : arkAccepts s = false := by simpa using h
    rw [if_neg h]
    exact hf

/-- C5 (as amended): string-to-field parsing, used for both Fq and Fr, rejects
the empty string, any string containing a non-decimal character and any
unnecessary leading zero; every accepted string parses to its decimal value
reduced modulo the field modulus (values ≥ the modulus are reduced, not
rejected). -/
theorem c5_parse_field_element_congruent (s : String) :
    (match parse_field_element q s with
     | .ok v => arkAccepts s = true ∧ v = decimalValue s % q
     | .error _ => arkAccepts s = false) ∧
    (match parse_field_element rScalar s with
     | .ok v => arkAccepts s = true ∧ v = decimalValue s % rScalar
     | .error _ => arkAccepts s = false) :=
  ⟨parse_field_element_spec q s, parse_field_element_spec rScalar s⟩

/-- The decimal spelling of the Fq modulus. -/
def qDecimal : String :=
  "21888242871839275222246405745257275088696311157297823662689037894645226208583"

/-- C5 counterexample: a decimal string whose value equals the field modulus —
hence ≥ the modulus — is accepted by `parse_field_element` and reduced to 0,
refuting the claim that such strings are rejected. -/
theorem c5_counterexample_modulus_accepted :
    parse_field_element q qDecimal = .ok 0 ∧ decimalValue qDecimal = q :=
  ⟨by decide, by decide⟩

/-! ## C3 -/

def pausedSt : ZKVerifier := { stWithVK with is_paused := true }

def arityInput : VerifyProofInput :=
  { circuit_type := .VerifiedBuilder, proof := sampleProof, public_signals := ["1", "1"],
    store_credential := true, custom_expiration := none, claim := none }

def validStoreInput : VerifyProofInput :=
  { circuit_type := .VerifiedBuilder, proof := sampleProof, public_signals := [],
    store_credential := true, custom_expiration := none, claim := none }

/-- C3 (as amended): in `verify_proof`, the paused, VK-missing and
insufficient-deposit conditions abort (the entry point returns an error, so
the transaction rolls back and no state write survives — in this embedding an
error carries no successor state); `verify_proof` has no caller-authorization
condition; and an arity mismatch between `len(vk.ic)` and
`len(public_signals) + 1` does NOT abort — it is folded into `valid = false`
with only `total_verifications` bumped. -/
theorem c3_verify_proof_abort_conditions (M : PairingModel) (sha : String → String)
    (ctx : Ctx) (stP : ZKVerifier) (inputP : VerifyProofInput)
    (stM : ZKVerifier) (inputM : VerifyProofInput)
    (ctxD : Ctx) (stD : ZKVerifier) (inputD : VerifyProofInput) (vkD : VerificationKey)
    (stA : ZKVerifier) (inputA : VerifyProofInput) (vkA : VerificationKey)
    (hP : stP.is_paused = true)
    (hnpM : stM.is_paused = false)
    (hmiss : alookup stM.verification_keys inputM.circuit_type.as_key = none)
    (hnpD : stD.is_paused = false)
    (hvkD : alookup stD.verification_keys inputD.circuit_type.as_key = some vkD)
    (hvalidD : verify_groth16_proof M vkD inputD.proof inputD.public_signals = .ok true)
    (hstoreD : inputD.store_credential = true)
    (hdepD : ctxD.attachedDeposit < stD.storage_cost_per_credential)
    (hnpA : stA.is_paused = false)
    (hvkA : alookup stA.verification_keys inputA.circuit_type.as_key = some vkA)
    (harity : vkA.ic.length ≠ inputA.public_signals.length + 1) :
    ZKVerifier.verify_proof M sha ctx stP inputP = .error .ContractPaused ∧
    ZKVerifier.verify_proof M sha ctx stM inputM =
      .error (.VerificationKeyNotFound inputM.circuit_type.as_key) ∧
    ZKVerifier.verify_proof M sha ctxD stD inputD =
      .error (.InsufficientDeposit stD.storage_cost_per_credential ctxD.attachedDeposit) ∧
    ZKVerifier.verify_proof M sha ctx stA inputA =
      .ok ({ stA with total_verifications := (stA.total_verifications + 1) % u64Mod },
           { valid := false, credential_id := none, gas_used := 0 }) := by
  refine ⟨?_, ?_, ?_, ?_⟩
  · unfold ZKVerifier.verify_proof ZKVerifier.assert_not_paused
    rw [hP]
    rfl
  · unfold ZKVerifier.verify_proof ZKVerifier.assert_not_paused
    rw [hnpM]
    simp only [if_neg Bool.false_ne_true, Except.bind, hmiss]
  · unfold ZKVerifier.verify_proof ZKVerifier.assert_not_paused
    rw [hnpD]
    simp only [if_neg Bool.false_ne_true, Except.bind, hvkD, hvalidD, hstoreD,
      Bool.and_self, if_pos hdepD]
    rfl
  · unfold ZKVerifier.verify_proof ZKVerifier.assert_not_paused
    rw [hnpA]
    simp only [if_neg Bool.false_ne_true, Except.bind, hvkA]
    have hvalid : (match verify_groth16_proof M vkA inputA.proof inputA.public_signals with
        | .ok valid => valid
        | .error _ => false) = false := by
      rw [verify_groth16_arity_error M vkA inputA.proof inputA.public_signals harity]
    rw [hvalid]
    simp

/-- C3 witness: concrete states exercising all four scenarios (the valid-proof
scenario uses the generator-built verification key and proof). -/
theorem c3_verify_proof_abort_conditions_witness :
    (pausedSt.is_paused = true ∧
     (ZKVerifier.new "owner").is_paused = false ∧
     alookup (ZKVerifier.new "owner").verification_keys arityInput.circuit_type.as_key = none ∧
     stWithVK.is_paused = false ∧
     alookup stWithVK.verification_keys validStoreInput.circuit_type.as_key = some sampleVK ∧
     verify_groth16_proof unitPairing sampleVK validStoreInput.proof
       validStoreInput.public_signals = .ok true ∧
     validStoreInput.store_credential = true ∧
     sampleCtx.attachedDeposit < stWithVK.storage_cost_per_credential ∧
     alookup stWithVK.verification_keys arityInput.circuit_type.as_key = some sampleVK ∧
     sampleVK.ic.length ≠ arityInput.public_signals.length + 1) ∧
    (ZKVerifier.verify_proof unitPairing sampleSha sampleCtx pausedSt arityInput =
       .error .ContractPaused ∧
     ZKVerifier.verify_proof unitPairing sampleSha sampleCtx (ZKVerifier.new "owner") arityInput =
       .error (.VerificationKeyNotFound arityInput.circuit_type.as_key) ∧
     ZKVerifier.verify_proof unitPairing sampleSha sampleCtx stWithVK validStoreInput =
       .error (.InsufficientDeposit stWithVK.storage_cost_per_credential
         sampleCtx.attachedDeposit) ∧
     ZKVerifier.verify_proof unitPairing sampleSha sampleCtx stWithVK arityInput =
       .ok ({ stWithVK with
               total_verifications := (stWithVK.total_verifications + 1) % u64Mod },
            { valid := false, credential_id := none, gas_used := 0 })) :=
  ⟨⟨rfl, rfl, by decide, rfl, by decide, by decide, rfl, by decide, by decide, by decide⟩,
   c3_verify_proof_abort_conditions unitPairing sampleSha sampleCtx pausedSt arityInput
     (ZKVerifier.new "owner") arityInput sampleCtx stWithVK validStoreInput sampleVK
     stWithVK arityInput sampleVK rfl rfl (by decide) rfl (by decide) (by decide) rfl
     (by decide) rfl (by decide) (by decide)⟩

/-- C3 counterexample: with a registered single-entry-IC key and two public
signals, `verify_proof` returns `Ok` with `valid = false` instead of aborting
on the arity mismatch. -/
theorem c3_counterexample_arity_mismatch_no_abort :
    ZKVerifier.verify_proof unitPairing sampleSha sampleCtx stWithVK arityInput =
      .ok ({ stWithVK with total_verifications := 1 },
           { valid := false, credential_id := none, gas_used := 0 }) := by
  decide

/-! ## C8 -/

/-- C8 (as amended): when the pause flag is set, the pause-gated entry points
are exactly `set_verification_key`, `verify_proof`, `verify_proof_view`,
`remove_credential` and `revoke_credential` (for callers that pass their
authorization checks, they fail with the "paused" error);
`propose_owner`, `add_admin`, `remove_admin`, `set_default_expiration`,
`set_paused` and `accept_ownership` are NOT pause-gated; the non-verification
view methods do not read the pause flag at all — but `verify_proof_view`,
although a view, IS pause-gated and fails when paused. -/
theorem c8_pause_gating (M : PairingModel) (sha : String → String)
    (st : ZKVerifier) (ctx ctx2 : Ctx) (input : VerifyProofInput)
    (ct : CircuitType) (vk : VerificationKey) (acct id : String)
    (secs now : Nat) (b : Bool)
    (hpause : st.is_paused = true)
    (howner : ctx.predecessor = st.owner)
    (hprop : st.proposed_owner = some ctx2.predecessor) :
    ZKVerifier.set_verification_key ctx st ct vk = .error .ContractPaused ∧
    ZKVerifier.verify_proof M sha ctx st input = .error .ContractPaused ∧
    ZKVerifier.verify_proof_view M st input = .error .ContractPaused ∧
    ZKVerifier.remove_credential ctx st id = .error .ContractPaused ∧
    ZKVerifier.revoke_credential ctx st id = .error .ContractPaused ∧
    ZKVerifier.propose_owner ctx st acct =
      .ok ({ st with proposed_owner := some acct }, ()) ∧
    ZKVerifier.add_admin ctx st acct =
      .ok ({ st with admins := sinsert acct st.admins }, ()) ∧
    ZKVerifier.remove_admin ctx st acct =
      .ok ({ st with admins := sremove acct st.admins }, ()) ∧
    ZKVerifier.set_default_expiration ctx st secs =
      .ok ({ st with default_expiration_secs := secs }, ()) ∧
    ZKVerifier.set_paused ctx st b = .ok ({ st with is_paused := b }, ()) ∧
    ZKVerifier.accept_ownership ctx2 st =
      .ok ({ st with owner := ctx2.predecessor, proposed_owner := none }, ()) ∧
    (∀ b2 : Bool,
      ZKVerifier.get_credential { st with is_paused := b2 } id =
        ZKVerifier.get_credential st id ∧
      ZKVerifier.is_credential_valid { st with is_paused := b2 } now id =
        ZKVerifier.is_credential_valid st now id ∧
      ZKVerifier.is_credential_revoked { st with is_paused := b2 } id =
        ZKVerifier.is_credential_revoked st id ∧
      ZKVerifier.has_verification_key { st with is_paused := b2 } ct =
        ZKVerifier.has_verification_key st ct ∧
      ZKVerifier.get_credentials_by_owner { st with is_paused := b2 } now acct none none none =
        ZKVerifier.get_credentials_by_owner st now acct none none none) := by
  have hAuthOwner : ZKVerifier.assert_owner ctx st = .ok () := by
    unfold ZKVerifier.assert_owner
    rw [if_neg (by rw [howner]; exact fun h => h rfl)]
  have hAuthOA : ZKVerifier.assert_owner_or_admin ctx st = .ok () := by
    unfold ZKVerifier.assert_owner_or_admin
    rw [if_neg (by rw [howner]; intro h; exact h.1 rfl)]
  have hPaused : ZKVerifier.assert_not_paused st = .error .ContractPaused := by
    unfold ZKVerifier.assert_not_paused
    rw [hpause]
    rfl
  refine ⟨?_, ?_, ?_, ?_, ?_, ?_, ?_, ?_, ?_, ?_, ?_, ?_⟩
  · unfold ZKVerifier.set_verification_key
    rw [hAuthOA, hPaused]
    rfl
  · unfold ZKVerifier.verify_proof
    rw [hPaused]
    rfl
  · unfold ZKVerifier.verify_proof_view
    rw [hPaused]
    rfl
  · unfold ZKVerifier.remove_credential
    rw [hPaused]
    rfl
  · unfold ZKVerifier.revoke_credential
    rw [hAuthOA, hPaused]
    rfl
  · unfold ZKVerifier.propose_owner
    rw [hAuthOwner]
    rfl
  · unfold ZKVerifier.add_admin
    rw [hAuthOwner]
    rfl
  · unfold ZKVerifier.remove_admin
    rw [hAuthOwner]
    rfl
  · unfold ZKVerifier.set_default_expiration
    rw [hAuthOwner]
    rfl
  · unfold ZKVerifier.set_paused
    rw [hAuthOwner]
    rfl
  · unfold ZKVerifier.accept_ownership
    rw [hprop]
    simp
  · intro b2
    exact ⟨rfl, rfl, rfl, rfl, rfl⟩

def ownerCtx : Ctx :=
  { predecessor := "owner", attachedDeposit := 0, blockTimestamp := 1700000000000000000 }

def aliceCtx : Ctx :=
  { predecessor := "alice", attachedDeposit := 0, blockTimestamp := 1700000000000000000 }

def pausedStWithProposal : ZKVerifier := { pausedSt with proposed_owner := some "alice" }

/-- C8 witness: the paused sample state with a pending proposal to "alice". -/
theorem c8_pause_gating_witness :
    (pausedStWithProposal.is_paused = true ∧
     ownerCtx.predecessor = pausedStWithProposal.owner ∧
     pausedStWithProposal.proposed_owner = some aliceCtx.predecessor) ∧
    (ZKVerifier.set_verification_key ownerCtx pausedStWithProposal .VerifiedBuilder sampleVK =
       .error .ContractPaused ∧
     ZKVerifier.verify_proof unitPairing sampleSha ownerCtx pausedStWithProposal arityInput =
       .error .ContractPaused ∧
     ZKVerifier.verify_proof_view unitPairing pausedStWithProposal arityInput =
       .error .ContractPaused ∧
     ZKVerifier.remove_credential ownerCtx pausedStWithProposal "cred-x" =
       .error .ContractPaused ∧
     ZKVerifier.revoke_credential ownerCtx pausedStWithProposal "cred-x" =
       .error .ContractPaused ∧
     ZKVerifier.propose_owner ownerCtx pausedStWithProposal "bob" =
       .ok ({ pausedStWithProposal with proposed_owner := some "bob" }, ()) ∧
     ZKVerifier.add_admin ownerCtx pausedStWithProposal "bob" =
       .ok ({ pausedStWithProposal with
               admins := sinsert "bob" pausedStWithProposal.admins }, ()) ∧
     ZKVerifier.remove_admin ownerCtx pausedStWithProposal "bob" =
       .ok ({ pausedStWithProposal with
               admins := sremove "bob" pausedStWithProposal.admins }, ()) ∧
     ZKVerifier.set_default_expiration ownerCtx pausedStWithProposal 7 =
       .ok ({ pausedStWithProposal with default_expiration_secs := 7 }, ()) ∧
     ZKVerifier.set_paused ownerCtx pausedStWithProposal false =
       .ok ({ pausedStWithProposal with is_paused := false }, ()) ∧
     ZKVerifier.accept_ownership aliceCtx pausedStWithProposal =
       .ok ({ pausedStWithProposal with
               owner := aliceCtx.predecessor, proposed_owner := none }, ()) ∧
     (∀ b2 : Bool,
       ZKVerifier.get_credential { pausedStWithProposal with is_paused := b2 } "cred-x" =
         ZKVerifier.get_credential pausedStWithProposal "cred-x" ∧
       ZKVerifier.is_credential_valid { pausedStWithProposal with is_paused := b2 } 5 "cred-x" =
         ZKVerifier.is_credential_valid pausedStWithProposal 5 "cred-x" ∧
       ZKVerifier.is_credential_revoked { pausedStWithProposal with is_paused := b2 } "cred-x" =
         ZKVerifier.is_credential_revoked pausedStWithProposal "cred-x" ∧
       ZKVerifier.has_verification_key { pausedStWithProposal with is_paused := b2 } .VerifiedBuilder =
         ZKVerifier.has_verification_key pausedStWithProposal .VerifiedBuilder ∧
       ZKVerifier.get_credentials_by_owner { pausedStWithProposal with is_paused := b2 } 5 "bob" none none none =
         ZKVerifier.get_credentials_by_owner pausedStWithProposal 5 "bob" none none none)) :=
  ⟨⟨rfl, rfl, rfl⟩,
   c8_pause_gating unitPairing sampleSha pausedStWithProposal ownerCtx aliceCtx arityInput
     .VerifiedBuilder sampleVK "bob" "cred-x" 7 5 false rfl rfl rfl⟩

/-- C8 counterexample: with the contract paused, `propose_owner` (a mutating
entry point) succeeds instead of failing with the paused error, while
`verify_proof_view` (a view method) fails with the paused error instead of
remaining available. -/
theorem c8_counterexample_pause_gaps :
    ZKVerifier.propose_owner ownerCtx pausedSt "alice" =
      .ok ({ pausedSt with proposed_owner := some "alice" }, ()) ∧
    ZKVerifier.verify_proof_view unitPairing pausedSt arityInput =
      .error .ContractPaused := by
  constructor
  · decide
  · decide

/-! ## C9 -/

/-- C9 (as amended): every credential stored by `verify_proof` has
`verified_at = block_timestamp / 1e9` and
`expires_at = (verified_at + expiry) mod 2^64` where `expiry` is the
caller-supplied custom expiration or else the configured default; hence
`expires_at > verified_at` holds exactly when the effective expiry is nonzero
and the u64 addition does not overflow — an expiry of 0 stores a credential
with `expires_at = verified_at`. -/
theorem c9_expires_at_arithmetic (M : PairingModel) (sha : String → String)
    (ctx : Ctx) (st : ZKVerifier) (input : VerifyProofInput)
    (ht : ctx.blockTimestamp < u64Mod)
    (he : input.custom_expiration.getD st.default_expiration_secs < u64Mod) :
    match ZKVerifier.verify_proof M sha ctx st input with
    | .ok (stres, res) =>
      match res.credential_id with
      | some id =>
        match alookup stres.credentials id with
        | some cred =>
          cred.verified_at = ctx.blockTimestamp / 1000000000 ∧
          cred.expires_at =
            (cred.verified_at + input.custom_expiration.getD st.default_expiration_secs) % u64Mod ∧
          (cred.expires_at ≤ cred.verified_at ↔
            (input.custom_expiration.getD st.default_expiration_secs = 0 ∨
             u64Mod ≤ cred.verified_at + input.custom_expiration.getD st.default_expiration_secs))
        | none => False
      | none => True
    | .error _ => True := by
  unfold ZKVerifier.verify_proof ZKVerifier.assert_not_paused
  by_cases hp : st.is_paused = true
  · simp [hp, Except.bind]
  · have hp' : st.is_paused = false := by simpa using hp
    simp only [hp', if_neg Bool.false_ne_true, Except.bind]
    cases hvk : alookup st.verification_keys input.circuit_type.as_key with
    | none => exact trivial
    | some vk =>
      cases hiv : (match verify_groth16_proof M vk input.proof input.public_signals with
        | .ok valid => valid
        | .error _ => false) with
      | false => simp [hiv, Bool.false_and]
      | true =>
        cases hst : input.store_credential with
        | false => simp [hiv, hst, Bool.and_false]
        | true =>
          simp only [hiv, hst, Bool.and_self, if_true]
          by_cases hdep : ctx.attachedDeposit < st.storage_cost_per_credential
          · simp [if_pos hdep]
          · simp only [if_neg hdep]
            simp only [Storage.store_credential, alookup_ainsert, if_pos rfl]
            refine ⟨rfl, rfl, ?_⟩
            have hn : ctx.blockTimestamp / 1000000000 < u64Mod :=
              lt_of_le_of_lt (Nat.div_le_self _ _) ht
            have h64 : u64Mod = 18446744073709551616 := rfl
            dsimp only
            rw [h64] at hn he ⊢
            omega

/-- C9 witness. -/
theorem c9_expires_at_arithmetic_witness :
    (sampleCtx.blockTimestamp < u64Mod ∧
     c10Input2.custom_expiration.getD stWithVK.default_expiration_secs < u64Mod) ∧
    (match ZKVerifier.verify_proof unitPairing sampleSha sampleCtx stWithVK c10Input2 with
     | .ok (stres, res) =>
       match res.credential_id with
       | some id =>
         match alookup stres.credentials id with
         | some cred =>
           cred.verified_at = sampleCtx.blockTimestamp / 1000000000 ∧
           cred.expires_at =
             (cred.verified_at +
               c10Input2.custom_expiration.getD stWithVK.default_expiration_secs) % u64Mod ∧
           (cred.expires_at ≤ cred.verified_at ↔
             (c10Input2.custom_expiration.getD stWithVK.default_expiration_secs = 0 ∨
              u64Mod ≤ cred.verified_at +
                c10Input2.custom_expiration.getD stWithVK.default_expiration_secs))
         | none => False
       | none => True
     | .error _ => True) :=
  ⟨⟨by decide, by decide⟩,
   c9_expires_at_arithmetic unitPairing sampleSha sampleCtx stWithVK c10Input2
     (by decide) (by decide)⟩

/-- A context with enough deposit attached to store a credential. -/
def richCtx : Ctx :=
  { predecessor := "alice", attachedDeposit := 10000000000000000000000,
    blockTimestamp := 1700000000000000000 }

/-- A verification request that stores a credential with a custom expiration
of zero seconds. -/
def zeroExpInput : VerifyProofInput :=
  { circuit_type := .VerifiedBuilder, proof := sampleProof, public_signals := [],
    store_credential := true, custom_expiration := some 0, claim := none }

/-- Does this `verify_proof` outcome contain a stored credential whose
`expires_at` equals its `verified_at`? -/
def storedWithEqualExpiry (out : Except ContractError (ZKVerifier × VerificationResult)) :
    Bool :=
  match out with
  | .ok (stres, res) =>
    match res.credential_id with
    | some id =>
      match alookup stres.credentials id with
      | some cred => res.valid && (cred.expires_at == cred.verified_at)
      | none => false
    | none => false
  | .error _ => false

/-- C9 counterexample: with `custom_expiration = Some(0)` and a sufficient
deposit, `verify_proof` stores a credential whose `expires_at` equals its
`verified_at`, refuting `expires_at > verified_at`. -/
theorem c9_counterexample_zero_expiry :
    storedWithEqualExpiry
      (ZKVerifier.verify_proof unitPairing sampleSha richCtx stWithVK zeroExpInput) = true := by
  decide

/-! ## C1 -/

/-- Parse a list of public signals as Fr elements, in order. -/
def parseSignals : List String → Except ContractError (List Nat)
  | [] => .ok []
  | s :: rest => do
    let v ← parse_field_element rScalar s
    let vs ← parseSignals rest
    .ok (v :: vs)

/-- The linear combination `ic[0] + Σ signals[i] · ic[i+1]` in the G1 group,
folded left to right exactly as iterated group addition. -/
def linear_combination (ic0 : Aff Nat) (sigVals : List Nat) (icRest : List (Aff Nat)) :
    Jac Nat :=
  (sigVals.zip icRest).foldl
    (fun acc sp => jacAdd fqOps acc (jacMul fqOps sp.1 (jacOfAffine fqOps sp.2)))
    (jacOfAffine fqOps ic0)

theorem exceptOkBind {α β : Type} (x : α) (f : α → Except ContractError β) :
    (Except.ok x >>= f : Except ContractError β) = f x := rfl

theorem vkxLoop_ok (sigs : List String) (sigVals : List Nat) (pts : List (Aff Nat))
    (acc : Jac Nat) (hSig : parseSignals sigs = .ok sigVals) :
    vkxLoop acc (sigs.zip pts) =
      .ok ((sigVals.zip pts).foldl
        (fun acc sp => jacAdd fqOps acc (jacMul fqOps sp.1 (jacOfAffine fqOps sp.2))) acc) := by
  induction sigs generalizing sigVals pts acc with
  | nil =>
    cases hSig
    rfl
  | cons s ss ih =>
    cases hps : parse_field_element rScalar s with
    | error e =>
      rw [parseSignals, hps] at hSig
      exact Except.noConfusion hSig
    | ok v =>
      cases hrest : parseSignals ss with
      | error e =>
        rw [parseSignals, hps, hrest] at hSig
        exact Except.noConfusion hSig
      | ok vs =>
        rw [parseSignals, hps, hrest] at hSig
        cases hSig
        cases pts with
        | nil => rfl
        | cons p ps =>
          show vkxLoop acc ((s, p) :: ss.zip ps) = _
          rw [vkxLoop, hps]
          show vkxLoop (jacAdd fqOps acc (jacMul fqOps v (jacOfAffine fqOps p))) (ss.zip ps) = _
          rw [ih vs ps _ hrest]
          rfl

/-- C1: with matching arity and all points and signals parsing, the Groth16
verifier returns `Ok(true)` exactly when the 4-term multi-pairing
`e(−A, B) · e(alpha, beta) · e(vk_x, gamma) · e(C, delta)` is the identity of
the target group, where `vk_x = ic[0] + Σ signals[i] · ic[i+1]` in G1. -/
theorem c1_groth16_pairing_equation (M : PairingModel) (vk : VerificationKey)
    (proof : Groth16Proof) (public_signals : List String)
    (a c alpha : Aff Nat) (b beta gamma delta : Aff (Nat × Nat))
    (ic0 : Aff Nat) (icRest : List (Aff Nat)) (sigVals : List Nat)
    (harity : vk.ic.length = public_signals.length + 1)
    (hA : parse_g1_point proof.pi_a = .ok a)
    (hB : parse_g2_point proof.pi_b = .ok b)
    (hC : parse_g1_point proof.pi_c = .ok c)
    (hAl : parse_g1_point vk.alpha = .ok alpha)
    (hBe : parse_g2_point vk.beta = .ok beta)
    (hGa : parse_g2_point vk.gamma = .ok gamma)
    (hDe : parse_g2_point vk.delta = .ok delta)
    (hIC : parseAll parse_g1_point vk.ic = .ok (ic0 :: icRest))
    (hSig : parseSignals public_signals = .ok sigVals) :
    verify_groth16_proof M vk proof public_signals = .ok true ↔
      M.isZero (M.multiPairing
        [g1Neg a, alpha, g1JacToAffine (linear_combination ic0 sigVals icRest), c]
        [b, beta, gamma, delta]) = true := by
  unfold verify_groth16_proof
  rw [if_neg (by rw [harity]; exact fun h => h rfl)]
  simp only [hA, hB, hC, hAl, hBe, hGa, hDe, hIC, exceptOkBind]
  rw [vkxLoop_ok public_signals sigVals icRest _ hSig]
  simp only [exceptOkBind, linear_combination, Except.ok.injEq]

/-- C1 witness: the generator-built verification key and proof with zero
public signals. -/
theorem c1_groth16_pairing_equation_witness :
    (sampleVK.ic.length = ([] : List String).length + 1 ∧
     parse_g1_point sampleProof.pi_a = .ok g1GenAff ∧
     parse_g2_point sampleProof.pi_b = .ok g2GenAff ∧
     parse_g1_point sampleProof.pi_c = .ok g1GenAff ∧
     parse_g1_point sampleVK.alpha = .ok g1GenAff ∧
     parse_g2_point sampleVK.beta = .ok g2GenAff ∧
     parse_g2_point sampleVK.gamma = .ok g2GenAff ∧
     parse_g2_point sampleVK.delta = .ok g2GenAff ∧
     parseAll parse_g1_point sampleVK.ic = .ok [g1GenAff] ∧
     parseSignals [] = .ok []) ∧
    (verify_groth16_proof unitPairing sampleVK sampleProof [] = .ok true ↔
      unitPairing.isZero (unitPairing.multiPairing
        [g1Neg g1GenAff, g1GenAff, g1JacToAffine (linear_combination g1GenAff [] []),
         g1GenAff]
        [g2GenAff, g2GenAff, g2GenAff, g2GenAff]) = true) :=
  ⟨⟨rfl, rfl, rfl, rfl, rfl, rfl, rfl, rfl, rfl, rfl⟩,
   c1_groth16_pairing_equation unitPairing sampleVK sampleProof [] g1GenAff g1GenAff
     g1GenAff g2GenAff g2GenAff g2GenAff g2GenAff g1GenAff [] [] rfl rfl rfl rfl rfl
     rfl rfl rfl rfl rfl⟩

/-! ## C2 -/

/-- A G2 point `pt` is a good parse of `coords`: the first two pairs exist and
have at least two strings, the four consumed components parse (wire order
[c1, c0], reconstructed as Fq2 (c0, c1)), the point uses no infinity flag, is
on the G2 curve and lies in the prime-order subgroup.  Trailing pairs and
trailing strings within the first two pairs are unconstrained. -/
def GoodG2Wire (coords : List (List String)) (pt : Aff (Nat × Nat)) : Prop :=
  pt.inf = false ∧ g2OnCurve pt = true ∧ g2InSubgroup pt = true ∧
  ∃ x1s x0s y1s y0s r0 r1 rest,
    coords = (x1s :: x0s :: r0) :: (y1s :: y0s :: r1) :: rest ∧
    parse_field_element q x1s = .ok pt.x.2 ∧
    parse_field_element q x0s = .ok pt.x.1 ∧
    parse_field_element q y1s = .ok pt.y.2 ∧
    parse_field_element q y0s = .ok pt.y.1

/-- C2 (as amended): `parse_g2_point` succeeds exactly on good parses — it
swaps each wire pair [c1, c0] into Fq2 (c0, c1), and the returned point is
always on the curve and inside the prime-order subgroup; it errors exactly
when there are fewer than two pairs, one of the FIRST TWO pairs has fewer
than two strings, one of the four consumed components fails to parse, the
point is off-curve, or the point is outside the subgroup (pairs beyond the
second are ignored entirely). -/
theorem c2_parse_g2_point_characterization (coords : List (List String)) :
    match parse_g2_point coords with
    | .ok pt => GoodG2Wire coords pt
    | .error _ => ∀ pt, ¬ GoodG2Wire coords pt := by
  cases coords with
  | nil =>
    intro pt hg
    obtain ⟨_, _, _, x1s, x0s, y1s, y0s, r0, r1, rest, hco, _⟩ := hg
    exact List.noConfusion hco
  | cons p0 tail =>
    cases tail with
    | nil =>
      intro pt hg
      obtain ⟨_, _, _, x1s, x0s, y1s, y0s, r0, r1, rest, hco, _⟩ := hg
      simp only [List.cons.injEq] at hco
      exact List.noConfusion hco.2
    | cons p1 rest2 =>
      cases p0 with
      | nil =>
        intro pt hg
        obtain ⟨_, _, _, x1s, x0s, y1s, y0s, r0, r1, rest, hco, _⟩ := hg
        simp only [List.cons.injEq] at hco
        exact List.noConfusion hco.1
      | cons x1w p0t =>
        cases p0t with
        | nil =>
          intro pt hg
          obtain ⟨_, _, _, x1s, x0s, y1s, y0s, r0, r1, rest, hco, _⟩ := hg
          simp only [List.cons.injEq] at hco
          exact List.noConfusion hco.1.2
        | cons x0w r0w =>
          cases p1 with
          | nil =>
            intro pt hg
            obtain ⟨_, _, _, x1s, x0s, y1s, y0s, r0, r1, rest, hco, _⟩ := hg
            simp only [List.cons.injEq] at hco
            exact List.noConfusion hco.2.1
          | cons y1w p1t =>
            cases p1t with
            | nil =>
              intro pt hg
              obtain ⟨_, _, _, x1s, x0s, y1s, y0s, r0, r1, rest, hco, _⟩ := hg
              simp only [List.cons.injEq] at hco
              exact List.noConfusion hco.2.1.2
            | cons y0w r1w =>
              show (match (do
                  let xc1 ← parse_field_element q x1w
                  let xc0 ← parse_field_element q x0w
                  let yc1 ← parse_field_element q y1w
                  let yc0 ← parse_field_element q y0w
                  let point : Aff (Nat × Nat) := ⟨(xc0, xc1), (yc0, yc1), false⟩
                  if !(g2OnCurve point) then
                    Except.error (.InvalidProofFormat "G2 point is not on curve")
                  else if !(g2InSubgroup point) then
                    Except.error (.InvalidProofFormat "G2 point is not in the correct subgroup")
                  else
                    Except.ok point : Except ContractError (Aff (Nat × Nat))) with
                | .ok pt => GoodG2Wire ((x1w :: x0w :: r0w) :: (y1w :: y0w :: r1w) :: rest2) pt
                | .error _ =>
                  ∀ pt, ¬ GoodG2Wire ((x1w :: x0w :: r0w) :: (y1w :: y0w :: r1w) :: rest2) pt)
              cases hx1 : parse_field_element q x1w with
              | error e =>
                simp only [exceptOkBind, hx1]
                intro pt hg
                obtain ⟨_, _, _, x1s, x0s, y1s, y0s, r0, r1, rest, hco, hp1, _⟩ := hg
                simp only [List.cons.injEq] at hco
                rw [hco.1.1] at hx1
                rw [hx1] at hp1
                exact Except.noConfusion hp1
              | ok v1 =>
                cases hx0 : parse_field_element q x0w with
                | error e =>
                  simp only [exceptOkBind, hx1, hx0]
                  intro pt hg
                  obtain ⟨_, _, _, x1s, x0s, y1s, y0s, r0, r1, rest, hco, _, hp0, _⟩ := hg
                  simp only [List.cons.injEq] at hco
                  rw [hco.1.2.1] at hx0
                  rw [hx0] at hp0
                  exact Except.noConfusion hp0
                | ok v0 =>
                  cases hy1 : parse_field_element q y1w with
                  | error e =>
                    simp only [exceptOkBind, hx1, hx0, hy1]
                    intro pt hg
                    obtain ⟨_, _, _, x1s, x0s, y1s, y0s, r0, r1, rest, hco, _, _, hq1, _⟩ := hg
                    simp only [List.cons.injEq] at hco
                    rw [hco.2.1.1] at hy1
                    rw [hy1] at hq1
                    exact Except.noConfusion hq1
                  | ok w1 =>
                    cases hy0 : parse_field_element q y0w with
                    | error e =>
                      simp only [exceptOkBind, hx1, hx0, hy1, hy0]
                      intro pt hg
                      obtain ⟨_, _, _, x1s, x0s, y1s, y0s, r0, r1, rest, hco, _, _, _, hq0⟩ := hg
                      simp only [List.cons.injEq] at hco
                      rw [hco.2.1.2.1] at hy0
                      rw [hy0] at hq0
                      exact Except.noConfusion hq0
                    | ok w0 =>
                      simp only [exceptOkBind, hx1, hx0, hy1, hy0]
                      cases hcv : g2OnCurve ⟨(v0, v1), (w0, w1), false⟩ with
                      | false =>
                        simp only [hcv, Bool.not_false, if_pos rfl]
                        intro pt hg
                        obtain ⟨hinf, hcu, _, x1s, x0s, y1s, y0s, r0, r1, rest, hco, hp1, hp0, hq1, hq0⟩ := hg
                        simp only [List.cons.injEq] at hco
                        rw [hco.1.1] at hx1; rw [hx1] at hp1
                        rw [hco.1.2.1] at hx0; rw [hx0] at hp0
                        rw [hco.2.1.1] at hy1; rw [hy1] at hq1
                        rw [hco.2.1.2.1] at hy0; rw [hy0] at hq0
                        have hpt : pt = ⟨(v0, v1), (w0, w1), false⟩ := by
                          obtain ⟨⟨ptx1, ptx2⟩, ⟨pty1, pty2⟩, ptinf⟩ := pt
                          simp only at hinf hp1 hp0 hq1 hq0
                          cases hp1; cases hp0; cases hq1; cases hq0
                          rw [hinf]
                        rw [hpt] at hcu
                        rw [hcu] at hcv
                        exact Bool.noConfusion hcv
                      | true =>
                        simp only [hcv, Bool.not_true, Bool.false_eq_true, if_false]
                        cases hsg : g2InSubgroup ⟨(v0, v1), (w0, w1), false⟩ with
                        | false =>
                          simp only [hsg, Bool.not_false, if_pos rfl]
                          intro pt hg
                          obtain ⟨hinf, _, hsu, x1s, x0s, y1s, y0s, r0, r1, rest, hco, hp1, hp0, hq1, hq0⟩ := hg
                          simp only [List.cons.injEq] at hco
                          rw [hco.1.1] at hx1; rw [hx1] at hp1
                          rw [hco.1.2.1] at hx0; rw [hx0] at hp0
                          rw [hco.2.1.1] at hy1; rw [hy1] at hq1
                          rw [hco.2.1.2.1] at hy0; rw [hy0] at hq0
                          have hpt : pt = ⟨(v0, v1), (w0, w1), false⟩ := by
                            obtain ⟨⟨ptx1, ptx2⟩, ⟨pty1, pty2⟩, ptinf⟩ := pt
                            simp only at hinf hp1 hp0 hq1 hq0
                            cases hp1; cases hp0; cases hq1; cases hq0
                            rw [hinf]
                          rw [hpt] at hsu
                          rw [hsu] at hsg
                          exact Bool.noConfusion hsg
                        | true =>
                          simp only [hsg, hcv, Bool.not_true, Bool.false_eq_true, if_false]
                          exact ⟨rfl, hcv, hsg, x1w, x0w, y1w, y0w, r0w, r1w, rest2,
                            rfl, hx1, hx0, hy1, hy0⟩

/-- The generator in wire format followed by a malformed trailing pair with a
single string. -/
def g2TrailingJunkWire : List (List String) :=
  [["11559732032986387107991004021392285783925812861821192530917403151452391805634",
    "10857046999023057135944570762232829481370756359578518086990519993285655852781"],
   ["4082367875863433681332203403145435568316851327593401208105741076214120093531",
    "8495653923123431417604973247489272438418190587263600148770280649306958101930"],
   ["7"]]

/-- C2 counterexample: an input whose third pair has fewer than two strings is
parsed successfully (the parser never looks past the first two pairs),
refuting "returns an error whenever any pair has fewer than two strings". -/
theorem c2_counterexample_short_trailing_pair :
    (∃ p ∈ g2TrailingJunkWire, p.length < 2) ∧
    parse_g2_point g2TrailingJunkWire = .ok g2GenAff :=
  ⟨by decide, by decide⟩

/-! ## C6 — command traces and the tombstone invariant -/

/-- One external call to a mutating entry point, with its host context. -/
inductive Cmd where
  | setVerificationKey (ctx : Ctx) (circuit_type : CircuitType) (vk : VerificationKey)
  | setPaused (ctx : Ctx) (paused : Bool)
  | proposeOwner (ctx : Ctx) (new_owner : String)
  | acceptOwnership (ctx : Ctx)
  | addAdmin (ctx : Ctx) (account : String)
  | removeAdmin (ctx : Ctx) (account : String)
  | setDefaultExpiration (ctx : Ctx) (seconds : Nat)
  | verifyProof (ctx : Ctx) (input : VerifyProofInput)
  | removeCredential (ctx : Ctx) (credential_id : String)
  | revokeCredential (ctx : Ctx) (credential_id : String)
deriving DecidableEq

def applyCmd (M : PairingModel) (sha : String → String) (st : ZKVerifier) :
    Cmd → Except ContractError ZKVerifier
  | .setVerificationKey ctx ct vk => (ZKVerifier.set_verification_key ctx st ct vk).map Prod.fst
  | .setPaused ctx b => (ZKVerifier.set_paused ctx st b).map Prod.fst
  | .proposeOwner ctx acct => (ZKVerifier.propose_owner ctx st acct).map Prod.fst
  | .acceptOwnership ctx => (ZKVerifier.accept_ownership ctx st).map Prod.fst
  | .addAdmin ctx acct => (ZKVerifier.add_admin ctx st acct).map Prod.fst
  | .removeAdmin ctx acct => (ZKVerifier.remove_admin ctx st acct).map Prod.fst
  | .setDefaultExpiration ctx secs => (ZKVerifier.set_default_expiration ctx st secs).map Prod.fst
  | .verifyProof ctx input => (ZKVerifier.verify_proof M sha ctx st input).map Prod.fst
  | .removeCredential ctx id => (ZKVerifier.remove_credential ctx st id).map Prod.fst
  | .revokeCredential ctx id => (ZKVerifier.revoke_credential ctx st id).map Prod.fst

/-- An aborted call (panic) rolls the state back: the old state survives. -/
def step (M : PairingModel) (sha : String → String) (st : ZKVerifier) (cmd : Cmd) :
    ZKVerifier :=
  match applyCmd M sha st cmd with
  | .ok st2 => st2
  | .error _ => st

def execTrace (M : PairingModel) (sha : String → String) (st : ZKVerifier) :
    List Cmd → ZKVerifier
  | [] => st
  | cmd :: rest => execTrace M sha (step M sha st cmd) rest

/-- The credential id that a `verify_proof` step would generate is fresh:
neither tombstoned nor currently stored.  With the real host digest
(SHA-256 over the monotonically increasing nonce) this holds unless a hash
collision occurs; the contract does not check it. -/
def stepFresh (sha : String → String) (st : ZKVerifier) : Cmd → Bool
  | .verifyProof ctx input =>
    let id := Storage.generate_credential_id sha ctx.predecessor input.circuit_type
      ((st.credential_nonce + 1) % u64Mod)
    !(decide (id ∈ st.revoked_credentials)) && (alookup st.credentials id).isNone
  | _ => true

def FreshAlong (M : PairingModel) (sha : String → String) (st : ZKVerifier) :
    List Cmd → Bool
  | [] => true
  | cmd :: rest => stepFresh sha st cmd && FreshAlong M sha (step M sha st cmd) rest

/-- Every id in an owner set belongs to a stored credential owned by that owner. -/
def SoundMaps (creds : List (String × Credential)) (byOwner : List (String × List String)) :
    Prop :=
  ∀ o set, alookup byOwner o = some set →
    ∀ id ∈ set, ∃ cred, alookup creds id = some cred ∧ cred.owner = o

/-- Every tombstoned id is absent from the credential map and all owner sets. -/
def CleanMaps (revoked : List String) (creds : List (String × Credential))
    (byOwner : List (String × List String)) : Prop :=
  ∀ id ∈ revoked,
    alookup creds id = none ∧
    ∀ o set, alookup byOwner o = some set → id ∉ set

def GoodState (st : ZKVerifier) : Prop :=
  SoundMaps st.credentials st.credentials_by_owner ∧
  CleanMaps st.revoked_credentials st.credentials st.credentials_by_owner

theorem goodState_congr (st st2 : ZKVerifier)
    (h1 : st2.credentials = st.credentials)
    (h2 : st2.credentials_by_owner = st.credentials_by_owner)
    (h3 : st2.revoked_credentials = st.revoked_credentials)
    (hg : GoodState st) : GoodState st2 := by
  obtain ⟨hs, hc⟩ := hg
  constructor
  · intro o set hset id hid
    rw [h1]
    exact hs o set (by rw [← h2]; exact hset) id hid
  · intro id hid
    rw [h3] at hid
    obtain ⟨ha, hb⟩ := hc id hid
    exact ⟨by rw [h1]; exact ha, fun o set hset => hb o set (by rw [← h2]; exact hset)⟩

/-- Storing a credential with a fresh id preserves both invariants. -/
theorem store_preserves (creds : List (String × Credential))
    (byOwner : List (String × List String)) (revoked : List String) (cred : Credential)
    (hmap : alookup creds cred.id = none)
    (hrev : cred.id ∉ revoked)
    (hsound : SoundMaps creds byOwner)
    (hclean : CleanMaps revoked creds byOwner) :
    SoundMaps (Storage.store_credential creds byOwner cred).1
      (Storage.store_credential creds byOwner cred).2 ∧
    CleanMaps revoked (Storage.store_credential creds byOwner cred).1
      (Storage.store_credential creds byOwner cred).2 := by
  unfold Storage.store_credential
  cases hbo : alookup byOwner cred.owner with
  | none =>
    simp only [hbo, alookup_ainsert, if_pos rfl, Option.getD_some]
    constructor
    · intro o set hset id hid
      rw [alookup_ainsert] at hset
      by_cases ho : cred.owner = o
      · rw [if_pos ho] at hset
        cases hset
        rcases (mem_sinsert _ _ _).mp hid with h | h
        · exact absurd h (List.not_mem_nil _)
        · subst h
          exact ⟨cred, by rw [alookup_ainsert, if_pos rfl], ho⟩
      · rw [if_neg ho, alookup_ainsert, if_neg ho] at hset
        obtain ⟨c, hcl, hco⟩ := hsound o set hset id hid
        refine ⟨c, ?_, hco⟩
        rw [alookup_ainsert, if_neg ?_]
        · exact hcl
        · intro he; rw [he] at hmap; rw [hmap] at hcl; exact Option.noConfusion hcl
    · intro idr hidr
      obtain ⟨hnone, hsets⟩ := hclean idr hidr
      have hne : cred.id ≠ idr := fun he => hrev (he ▸ hidr)
      constructor
      · rw [alookup_ainsert, if_neg hne]
        exact hnone
      · intro o set hset
        rw [alookup_ainsert] at hset
        by_cases ho : cred.owner = o
        · rw [if_pos ho] at hset
          cases hset
          intro hin
          rcases (mem_sinsert _ _ _).mp hin with h | h
          · exact List.not_mem_nil _ h
          · exact hne h.symm
        · rw [if_neg ho, alookup_ainsert, if_neg ho] at hset
          exact hsets o set hset
  | some s0 =>
    simp only [hbo, alookup_ainsert, Option.getD_some]
    constructor
    · intro o set hset id hid
      rw [alookup_ainsert] at hset
      by_cases ho : cred.owner = o
      · rw [if_pos ho] at hset
        cases hset
        rcases (mem_sinsert _ _ _).mp hid with h | h
        · obtain ⟨c, hcl, hco⟩ := hsound cred.owner s0 hbo id h
          refine ⟨c, ?_, by rw [← ho]; exact hco⟩
          rw [alookup_ainsert, if_neg ?_]
          · exact hcl
          · intro he; rw [he] at hmap; rw [hmap] at hcl; exact Option.noConfusion hcl
        · subst h
          exact ⟨cred, by rw [alookup_ainsert, if_pos rfl], ho⟩
      · rw [if_neg ho] at hset
        obtain ⟨c, hcl, hco⟩ := hsound o set hset id hid
        refine ⟨c, ?_, hco⟩
        rw [alookup_ainsert, if_neg ?_]
        · exact hcl
        · intro he; rw [he] at hmap; rw [hmap] at hcl; exact Option.noConfusion hcl
    · intro idr hidr
      obtain ⟨hnone, hsets⟩ := hclean idr hidr
      have hne : cred.id ≠ idr := fun he => hrev (he ▸ hidr)
      constructor
      · rw [alookup_ainsert, if_neg hne]
        exact hnone
      · intro o set hset
        rw [alookup_ainsert] at hset
        by_cases ho : cred.owner = o
        · rw [if_pos ho] at hset
          cases hset
          intro hin
          rcases (mem_sinsert _ _ _).mp hin with h | h
          · exact hsets cred.owner s0 hbo h
          · exact hne h.symm
        · rw [if_neg ho] at hset
          exact hsets o set hset

/-- Erasing a stored credential (as `remove_credential` and `revoke_credential`
do) preserves soundness and cleanliness, and the erased id survives in no
owner set. -/
theorem erase_preserves (creds : List (String × Credential))
    (byOwner : List (String × List String)) (rev : List String) (rid : String)
    (cred : Credential)
    (hc : alookup creds rid = some cred)
    (hsound : SoundMaps creds byOwner)
    (hclean : CleanMaps rev creds byOwner) :
    SoundMaps (aremove rid creds)
      (match alookup byOwner cred.owner with
       | some s => ainsert cred.owner (sremove rid s) byOwner
       | none => byOwner) ∧
    CleanMaps rev (aremove rid creds)
      (match alookup byOwner cred.owner with
       | some s => ainsert cred.owner (sremove rid s) byOwner
       | none => byOwner) ∧
    (∀ o set,
      alookup (match alookup byOwner cred.owner with
               | some s => ainsert cred.owner (sremove rid s) byOwner
               | none => byOwner) o = some set → rid ∉ set) := by
  cases hbo : alookup byOwner cred.owner with
  | some s =>
    refine ⟨?_, ?_, ?_⟩
    · intro o set hset id hid
      rw [alookup_ainsert] at hset
      by_cases ho : cred.owner = o
      · rw [if_pos ho] at hset
        cases hset
        obtain ⟨hin, hne⟩ := (mem_sremove _ _ _).mp hid
        obtain ⟨c, hcl, hco⟩ := hsound cred.owner s hbo id hin
        refine ⟨c, ?_, by rw [← ho]; exact hco⟩
        rw [alookup_aremove, if_neg (fun he => hne he.symm)]
        exact hcl
      · rw [if_neg ho] at hset
        obtain ⟨c, hcl, hco⟩ := hsound o set hset id hid
        refine ⟨c, ?_, hco⟩
        rw [alookup_aremove, if_neg ?_]
        · exact hcl
        · intro he
          rw [← he] at hcl
          rw [hc] at hcl
          cases hcl
          exact ho hco
    · intro idr hidr
      obtain ⟨hnone, hsets⟩ := hclean idr hidr
      constructor
      · rw [alookup_aremove]
        by_cases he : rid = idr
        · rw [if_pos he]
        · rw [if_neg he]; exact hnone
      · intro o set hset
        rw [alookup_ainsert] at hset
        by_cases ho : cred.owner = o
        · rw [if_pos ho] at hset
          cases hset
          intro hin
          exact hsets cred.owner s hbo ((mem_sremove _ _ _).mp hin).1
        · rw [if_neg ho] at hset
          exact hsets o set hset
    · intro o set hset
      rw [alookup_ainsert] at hset
      by_cases ho : cred.owner = o
      · rw [if_pos ho] at hset
        cases hset
        intro hin
        exact ((mem_sremove _ _ _).mp hin).2 rfl
      · rw [if_neg ho] at hset
        intro hin
        obtain ⟨c, hcl, hco⟩ := hsound o set hset rid hin
        rw [hc] at hcl
        cases hcl
        exact ho hco
  | none =>
    refine ⟨?_, ?_, ?_⟩
    · intro o set hset id hid
      obtain ⟨c, hcl, hco⟩ := hsound o set hset id hid
      refine ⟨c, ?_, hco⟩
      rw [alookup_aremove, if_neg ?_]
      · exact hcl
      · intro he
        rw [← he] at hcl
        rw [hc] at hcl
        cases hcl
        rw [hco] at hbo
        rw [hset] at hbo
        exact Option.noConfusion hbo
    · intro idr hidr
      obtain ⟨hnone, hsets⟩ := hclean idr hidr
      constructor
      · rw [alookup_aremove]
        by_cases he : rid = idr
        · rw [if_pos he]
        · rw [if_neg he]; exact hnone
      · exact hsets
    · intro o set hset hin
      obtain ⟨c, hcl, hco⟩ := hsound o set hset rid hin
      rw [hc] at hcl
      cases hcl
      rw [hco] at hbo
      rw [hset] at hbo
      exact Option.noConfusion hbo

/-- Initial state is good. -/
theorem goodState_new (owner : String) : GoodState (ZKVerifier.new owner) := by
  constructor
  · intro o set hset
    exact Option.noConfusion hset
  · intro id hid
    exact absurd hid (List.not_mem_nil _)

/-- One step from a good state with a fresh generated id stays good. -/
theorem step_preserves_good (M : PairingModel) (sha : String → String)
    (st : ZKVerifier) (cmd : Cmd)
    (hfresh : stepFresh sha st cmd = true) (hg : GoodState st) :
    GoodState (step M sha st cmd) := by
  cases cmd with
  | setVerificationKey ctx ct vk =>
    simp only [step, applyCmd, ZKVerifier.set_verification_key,
      ZKVerifier.assert_owner_or_admin, ZKVerifier.assert_not_paused]
    by_cases hauth : ctx.predecessor ≠ st.owner ∧ ctx.predecessor ∉ st.admins
    · simp [hauth, Except.bind, Except.map]
      exact hg
    · by_cases hp : st.is_paused = true
      · simp [hauth, hp, Except.bind, Except.map]
        exact hg
      · by_cases hempty : vk.ic.isEmpty = true
        · simp [hauth, hp, hempty, Except.bind, Except.map]
          exact hg
        · simp only [hauth, hp, hempty, if_neg, if_false, Except.bind, Except.map,
            Bool.false_eq_true]
          by_cases hnew : (alookup st.verification_keys ct.as_key).isNone = true
          · simp [hauth, hp, hempty, hnew, Except.bind, Except.map]
            exact goodState_congr st _ rfl rfl rfl hg
          · simp [hauth, hp, hempty, hnew, Except.bind, Except.map]
            exact goodState_congr st _ rfl rfl rfl hg
  | setPaused ctx b =>
    simp only [step, applyCmd, ZKVerifier.set_paused, ZKVerifier.assert_owner]
    by_cases h : ctx.predecessor ≠ st.owner
    · simp [h, Except.bind, Except.map]
      exact hg
    · simp [h, Except.bind, Except.map]
      exact goodState_congr st _ rfl rfl rfl hg
  | proposeOwner ctx acct =>
    simp only [step, applyCmd, ZKVerifier.propose_owner, ZKVerifier.assert_owner]
    by_cases h : ctx.predecessor ≠ st.owner
    · simp [h, Except.bind, Except.map]
      exact hg
    · simp [h, Except.bind, Except.map]
      exact goodState_congr st _ rfl rfl rfl hg
  | acceptOwnership ctx =>
    simp only [step, applyCmd, ZKVerifier.accept_ownership]
    cases hprop : st.proposed_owner with
    | none =>
      simp [Except.map]
      exact hg
    | some p =>
      by_cases h : ctx.predecessor ≠ p
      · simp [h, Except.map]
        exact hg
      · simp [h, Except.map]
        exact goodState_congr st _ rfl rfl rfl hg
  | addAdmin ctx acct =>
    simp only [step, applyCmd, ZKVerifier.add_admin, ZKVerifier.assert_owner]
    by_cases h : ctx.predecessor ≠ st.owner
    · simp [h, Except.bind, Except.map]
      exact hg
    · simp [h, Except.bind, Except.map]
      exact goodState_congr st _ rfl rfl rfl hg
  | removeAdmin ctx acct =>
    simp only [step, applyCmd, ZKVerifier.remove_admin, ZKVerifier.assert_owner]
    by_cases h : ctx.predecessor ≠ st.owner
    · simp [h, Except.bind, Except.map]
      exact hg
    · simp [h, Except.bind, Except.map]
      exact goodState_congr st _ rfl rfl rfl hg
  | setDefaultExpiration ctx secs =>
    simp only [step, applyCmd, ZKVerifier.set_default_expiration, ZKVerifier.assert_owner]
    by_cases h : ctx.predecessor ≠ st.owner
    · simp [h, Except.bind, Except.map]
      exact hg
    · simp [h, Except.bind, Except.map]
      exact goodState_congr st _ rfl rfl rfl hg
  | verifyProof ctx input =>
    simp only [step, applyCmd, ZKVerifier.verify_proof, ZKVerifier.assert_not_paused]
    by_cases hp : st.is_paused = true
    · simp [hp, Except.bind, Except.map]
      exact hg
    · have hp' : st.is_paused = false := by simpa using hp
      simp only [hp', if_neg Bool.false_ne_true, Except.bind]
      cases hvk : alookup st.verification_keys input.circuit_type.as_key with
      | none =>
        simp [Except.map]
        exact hg
      | some vk =>
        cases hiv : (match verify_groth16_proof M vk input.proof input.public_signals with
          | .ok valid => valid
          | .error _ => false) with
        | false =>
          simp [hiv, Except.map]
          exact goodState_congr st _ rfl rfl rfl hg
        | true =>
          cases hst : input.store_credential with
          | false =>
            simp [hiv, hst, Except.map]
            exact goodState_congr st _ rfl rfl rfl hg
          | true =>
            simp only [hiv, hst, Bool.and_self, if_true]
            by_cases hdep : ctx.attachedDeposit < st.storage_cost_per_credential
            · simp [hdep, Except.map]
              exact hg
            · simp only [hdep, if_neg, if_false, Except.map]
              simp only [stepFresh] at hfresh
              rw [Bool.and_eq_true] at hfresh
              obtain ⟨h1, h2⟩ := hfresh
              have hrev : Storage.generate_credential_id sha ctx.predecessor
                  input.circuit_type ((st.credential_nonce + 1) % u64Mod) ∉
                  st.revoked_credentials := by
                simpa using h1
              have hmap : alookup st.credentials
                  (Storage.generate_credential_id sha ctx.predecessor
                    input.circuit_type ((st.credential_nonce + 1) % u64Mod)) = none :=
                Option.isNone_iff_eq_none.mp h2
              have hres := store_preserves st.credentials st.credentials_by_owner
                st.revoked_credentials
                { id := Storage.generate_credential_id sha ctx.predecessor
                    input.circuit_type ((st.credential_nonce + 1) % u64Mod),
                  owner := ctx.predecessor, circuit_type := input.circuit_type,
                  public_signals := input.public_signals,
                  verified_at := ctx.blockTimestamp / 1000000000,
                  expires_at := (ctx.blockTimestamp / 1000000000 +
                    input.custom_expiration.getD st.default_expiration_secs) % u64Mod,
                  claim := input.claim }
                hmap hrev hg.1 hg.2
              exact ⟨hres.1, hres.2⟩
  | removeCredential ctx id =>
    simp only [step, applyCmd, ZKVerifier.remove_credential, ZKVerifier.assert_not_paused,
      Storage.remove_credential]
    by_cases hp : st.is_paused = true
    · simp [hp, Except.bind, Except.map]
      exact hg
    · have hp' : st.is_paused = false := by simpa using hp
      simp only [hp', if_neg Bool.false_ne_true, Except.bind]
      cases hc : alookup st.credentials id with
      | none =>
        simp [Except.map]
        exact goodState_congr st _ rfl rfl rfl hg
      | some cred =>
        by_cases hown : cred.owner ≠ ctx.predecessor
        · simp [hown, Except.map]
          exact goodState_congr st _ rfl rfl rfl hg
        · simp [hown, Except.map]
          have hres := erase_preserves st.credentials st.credentials_by_owner
            st.revoked_credentials id cred hc hg.1 hg.2
          exact ⟨hres.1, hres.2.1⟩
  | revokeCredential ctx id =>
    simp only [step, applyCmd, ZKVerifier.revoke_credential,
      ZKVerifier.assert_owner_or_admin, ZKVerifier.assert_not_paused]
    by_cases hauth : ctx.predecessor ≠ st.owner ∧ ctx.predecessor ∉ st.admins
    · simp [hauth, Except.bind, Except.map]
      exact hg
    · by_cases hp : st.is_paused = true
      · simp [hauth, hp, Except.bind, Except.map]
        exact hg
      · simp only [hauth, hp, if_neg, if_false, Except.bind, Except.map]
        cases hc : alookup st.credentials id with
        | none =>
          simp [hauth, hp, hc, Except.bind, Except.map]
          constructor
          · exact hg.1
          · intro idr hidr
            rcases (mem_sinsert _ _ _).mp hidr with h | h
            · exact hg.2 idr h
            · subst h
              refine ⟨hc, ?_⟩
              intro o set hset hin
              obtain ⟨c, hcl, _⟩ := hg.1 o set hset idr hin
              rw [hc] at hcl
              exact Option.noConfusion hcl
        | some cred =>
          simp [hauth, hp, hc, Except.bind, Except.map]
          have hres := erase_preserves st.credentials st.credentials_by_owner
            st.revoked_credentials id cred hc hg.1 hg.2
          constructor
          · exact hres.1
          · intro idr hidr
            rcases (mem_sinsert _ _ _).mp hidr with h | h
            · exact hres.2.1 idr h
            · subst h
              refine ⟨?_, ?_⟩
              · rw [alookup_aremove, if_pos rfl]
              · intro o set hset
                exact hres.2.2 o set hset

/-- The tombstone set never shrinks: ids can only ever be added. -/
theorem step_revoked_mono (M : PairingModel) (sha : String → String)
    (st : ZKVerifier) (cmd : Cmd) :
    ∀ id ∈ st.revoked_credentials, id ∈ (step M sha st cmd).revoked_credentials := by
  intro idm hidm
  cases cmd with
  | setVerificationKey ctx ct vk =>
    simp only [step, applyCmd, ZKVerifier.set_verification_key,
      ZKVerifier.assert_owner_or_admin, ZKVerifier.assert_not_paused]
    by_cases hauth : ctx.predecessor ≠ st.owner ∧ ctx.predecessor ∉ st.admins
    · simp [hauth, Except.bind, Except.map]; exact hidm
    · by_cases hp : st.is_paused = true
      · simp [hauth, hp, Except.bind, Except.map]; exact hidm
      · by_cases hempty : vk.ic.isEmpty = true
        · simp [hauth, hp, hempty, Except.bind, Except.map]; exact hidm
        · by_cases hnew : (alookup st.verification_keys ct.as_key).isNone = true
          · simp [hauth, hp, hempty, hnew, Except.bind, Except.map]; exact hidm
          · simp [hauth, hp, hempty, hnew, Except.bind, Except.map]; exact hidm
  | setPaused ctx b =>
    simp only [step, applyCmd, ZKVerifier.set_paused, ZKVerifier.assert_owner]
    by_cases h : ctx.predecessor ≠ st.owner
    · simp [h, Except.bind, Except.map]; exact hidm
    · simp [h, Except.bind, Except.map]; exact hidm
  | proposeOwner ctx acct =>
    simp only [step, applyCmd, ZKVerifier.propose_owner, ZKVerifier.assert_owner]
    by_cases h : ctx.predecessor ≠ st.owner
    · simp [h, Except.bind, Except.map]; exact hidm
    · simp [h, Except.bind, Except.map]; exact hidm
  | acceptOwnership ctx =>
    simp only [step, applyCmd, ZKVerifier.accept_ownership]
    cases hprop : st.proposed_owner with
    | none => simp [Except.map]; exact hidm
    | some p =>
      by_cases h : ctx.predecessor ≠ p
      · simp [h, Except.map]; exact hidm
      · simp [h, Except.map]; exact hidm
  | addAdmin ctx acct =>
    simp only [step, applyCmd, ZKVerifier.add_admin, ZKVerifier.assert_owner]
    by_cases h : ctx.predecessor ≠ st.owner
    · simp [h, Except.bind, Except.map]; exact hidm
    · simp [h, Except.bind, Except.map]; exact hidm
  | removeAdmin ctx acct =>
    simp only [step, applyCmd, ZKVerifier.remove_admin, ZKVerifier.assert_owner]
    by_cases h : ctx.predecessor ≠ st.owner
    · simp [h, Except.bind, Except.map]; exact hidm
    · simp [h, Except.bind, Except.map]; exact hidm
  | setDefaultExpiration ctx secs =>
    simp only [step, applyCmd, ZKVerifier.set_default_expiration, ZKVerifier.assert_owner]
    by_cases h : ctx.predecessor ≠ st.owner
    · simp [h, Except.bind, Except.map]; exact hidm
    · simp [h, Except.bind, Except.map]; exact hidm
  | verifyProof ctx input =>
    simp only [step, applyCmd, ZKVerifier.verify_proof, ZKVerifier.assert_not_paused]
    by_cases hp : st.is_paused = true
    · simp [hp, Except.bind, Except.map]; exact hidm
    · have hp' : st.is_paused = false := by simpa using hp
      simp only [hp', if_neg Bool.false_ne_true, Except.bind]
      cases hvk : alookup st.verification_keys input.circuit_type.as_key with
      | none => simp [Except.map]; exact hidm
      | some vk =>
        cases hiv : (match verify_groth16_proof M vk input.proof input.public_signals with
          | .ok valid => valid
          | .error _ => false) with
        | false => simp [hiv, Except.map]; exact hidm
        | true =>
          cases hst : input.store_credential with
          | false => simp [hiv, hst, Except.map]; exact hidm
          | true =>
            simp only [hiv, hst, Bool.and_self, if_true]
            by_cases hdep : ctx.attachedDeposit < st.storage_cost_per_credential
            · simp [hdep, Except.map]; exact hidm
            · simp [hdep, Except.map]; exact hidm
  | removeCredential ctx id =>
    simp only [step, applyCmd, ZKVerifier.remove_credential, ZKVerifier.assert_not_paused,
      Storage.remove_credential]
    by_cases hp : st.is_paused = true
    · simp [hp, Except.bind, Except.map]; exact hidm
    · have hp' : st.is_paused = false := by simpa using hp
      simp only [hp', if_neg Bool.false_ne_true, Except.bind]
      cases hc : alookup st.credentials id with
      | none => simp [Except.map]; exact hidm
      | some cred =>
        by_cases hown : cred.owner ≠ ctx.predecessor
        · simp [hown, Except.map]; exact hidm
        · simp [hown, Except.map]; exact hidm
  | revokeCredential ctx id =>
    simp only [step, applyCmd, ZKVerifier.revoke_credential,
      ZKVerifier.assert_owner_or_admin, ZKVerifier.assert_not_paused]
    by_cases hauth : ctx.predecessor ≠ st.owner ∧ ctx.predecessor ∉ st.admins
    · simp [hauth, Except.bind, Except.map]; exact hidm
    · by_cases hp : st.is_paused = true
      · simp [hauth, hp, Except.bind, Except.map]; exact hidm
      · cases hc : alookup st.credentials id with
        | none =>
          simp [hauth, hp, hc, Except.bind, Except.map]
          exact (mem_sinsert _ _ _).mpr (Or.inl hidm)
        | some cred =>
          simp [hauth, hp, hc, Except.bind, Except.map]
          exact (mem_sinsert _ _ _).mpr (Or.inl hidm)

theorem execTrace_append (M : PairingModel) (sha : String → String)
    (st : ZKVerifier) (cmds cmds2 : List Cmd) :
    execTrace M sha st (cmds ++ cmds2) = execTrace M sha (execTrace M sha st cmds) cmds2 := by
  induction cmds generalizing st with
  | nil => rfl
  | cons cmd rest ih =>
    show execTrace M sha (step M sha st cmd) (rest ++ cmds2) = _
    rw [ih]
    rfl

theorem execTrace_revoked_mono (M : PairingModel) (sha : String → String)
    (st : ZKVerifier) (cmds : List Cmd) :
    ∀ id ∈ st.revoked_credentials, id ∈ (execTrace M sha st cmds).revoked_credentials := by
  induction cmds generalizing st with
  | nil => exact fun id h => h
  | cons cmd rest ih =>
    intro idx hidx
    exact ih (step M sha st cmd) idx (step_revoked_mono M sha st cmd idx hidx)

theorem execTrace_preserves_good (M : PairingModel) (sha : String → String)
    (st : ZKVerifier) (cmds : List Cmd)
    (hfresh : FreshAlong M sha st cmds = true) (hg : GoodState st) :
    GoodState (execTrace M sha st cmds) := by
  induction cmds generalizing st with
  | nil => exact hg
  | cons cmd rest ih =>
    rw [FreshAlong, Bool.and_eq_true] at hfresh
    exact ih (step M sha st cmd) hfresh.2 (step_preserves_good M sha st cmd hfresh.1 hg)

/-- C6 (as amended): starting from initialization, along any trace of contract
calls in which every id generated at a `verify_proof` step is fresh (not
tombstoned and not currently stored — which the contract itself does not
check, but which holds for the SHA-256 digest unless a collision occurs),
every revoked id is absent from the credentials map and from every per-owner
id set, and remains in the tombstone set under any further trace. -/
theorem c6_tombstone_invariant (M : PairingModel) (sha : String → String)
    (owner : String) (cmds cmds2 : List Cmd)
    (hfresh : FreshAlong M sha (ZKVerifier.new owner) cmds = true) :
    ∀ id ∈ (execTrace M sha (ZKVerifier.new owner) cmds).revoked_credentials,
      alookup (execTrace M sha (ZKVerifier.new owner) cmds).credentials id = none ∧
      (∀ o set,
        alookup (execTrace M sha (ZKVerifier.new owner) cmds).credentials_by_owner o =
          some set → id ∉ set) ∧
      id ∈ (execTrace M sha (ZKVerifier.new owner) (cmds ++ cmds2)).revoked_credentials := by
  intro id hid
  have hgood := execTrace_preserves_good M sha (ZKVerifier.new owner) cmds hfresh
    (goodState_new owner)
  obtain ⟨hnone, hsets⟩ := hgood.2 id hid
  refine ⟨hnone, hsets, ?_⟩
  rw [execTrace_append]
  exact execTrace_revoked_mono M sha _ cmds2 id hid

def c6WitnessCmds : List Cmd := [.revokeCredential ownerCtx "cred-x"]

def c6WitnessCmds2 : List Cmd := [.setPaused ownerCtx true]

/-- C6 witness: revoke a never-stored id, then pause. -/
theorem c6_tombstone_invariant_witness :
    (FreshAlong unitPairing sampleSha (ZKVerifier.new "owner") c6WitnessCmds = true) ∧
    (∀ id ∈ (execTrace unitPairing sampleSha (ZKVerifier.new "owner")
        c6WitnessCmds).revoked_credentials,
      alookup (execTrace unitPairing sampleSha (ZKVerifier.new "owner")
        c6WitnessCmds).credentials id = none ∧
      (∀ o set,
        alookup (execTrace unitPairing sampleSha (ZKVerifier.new "owner")
          c6WitnessCmds).credentials_by_owner o = some set → id ∉ set) ∧
      id ∈ (execTrace unitPairing sampleSha (ZKVerifier.new "owner")
        (c6WitnessCmds ++ c6WitnessCmds2)).revoked_credentials) :=
  ⟨by decide,
   c6_tombstone_invariant unitPairing sampleSha "owner" c6WitnessCmds c6WitnessCmds2
     (by decide)⟩

/-- Install the sample key, tombstone the id the digest stub will generate
next, then store a credential whose generated id collides with it. -/
def c6BreakCmds : List Cmd :=
  [.setVerificationKey ownerCtx .VerifiedBuilder sampleVK,
   .revokeCredential ownerCtx "cred-00",
   .verifyProof richCtx validStoreInput]

/-- C6 counterexample: the contract never consults the tombstone when storing,
so a generated id equal to a revoked id re-enters the credentials map while
still tombstoned — the revoked id is no longer absent from the main map. -/
theorem c6_counterexample_collision_resurrects :
    ("cred-00" ∈ (execTrace unitPairing sampleSha (ZKVerifier.new "owner")
       c6BreakCmds).revoked_credentials) ∧
    (alookup (execTrace unitPairing sampleSha (ZKVerifier.new "owner")
       c6BreakCmds).credentials "cred-00").isSome = true :=
  ⟨by decide, by decide⟩

end ShadeStudio
